import Mathlib

/-!
Verification of the persona-db conversion pipeline.

This file gives a shallow embedding of the pipeline implemented in
`src/utils.py`, `src/main.py` and `src/converter.py`:

* a JSON value type and an executable JSON parser matching the behaviour of
  Python's `json.loads` / `JSONDecoder.raw_decode` (standard JSON grammar);
* the extraction routine `extract_json_from_output` from `src/utils.py`,
  including the fenced-region regular expression and the first-brace
  fallback scan;
* the per-field RDF conversion, the per-persona conversion and the
  orchestrating run `process_all_personas` from `src/converter.py`, with the
  filesystem modelled as an explicit association of filenames to optional
  contents (a `none` content stands for a file that cannot be opened), and
  raised Python exceptions modelled with `Except`.

Python text is modelled as `List Char`.  Machine-level aspects that no
statement below depends on (IEEE-754 shortest-repr float printing, unicode
digit classes beyond ASCII) are rendered by executable stand-ins that are
documented at their definition sites.
-/

set_option maxRecDepth 10000

/-- Shorthand turning a Lean string literal into the `List Char` text
representation used throughout the model. -/
def S (s : String) : List Char := s.data

/-- Decimal digit character for a value below ten. -/
def digitChar (d : Nat) : Char := Char.ofNat (48 + d)

/-- Fuel-indexed decimal rendering of a natural number (Python `str(n)`). -/
def natToDecFuel : Nat → Nat → List Char
  | 0, _ => []
  | fuel + 1, n => if n < 10 then [digitChar n] else natToDecFuel fuel (n / 10) ++ [digitChar (n % 10)]

/-- Decimal rendering of a natural number, as Python `str` produces it. -/
def natToDec (n : Nat) : List Char := natToDecFuel (n + 1) n

/-- Decimal rendering of an integer, as Python `str` produces it. -/
def intToDec : Int → List Char
  | .ofNat n => natToDec n
  | .negSucc n => '-' :: natToDec (n + 1)

/-- Numeric value of a decimal digit string (used to invert `natToDec`). -/
def decToNat (cs : List Char) : Nat := cs.foldl (fun acc c => 10 * acc + (c.toNat - 48)) 0

/-- ASCII decimal digit test (Python `str.isdigit` restricted to ASCII,
which is the only digit class the repository's filenames and URIs use). -/
def isAsciiDigit (c : Char) : Bool := 48 ≤ c.toNat && c.toNat ≤ 57

/-- Python `str.isdigit`: nonempty and all digits. -/
def pyIsDigit (cs : List Char) : Bool := !cs.isEmpty && cs.all isAsciiDigit

/-! ## JSON values and Python dict operations -/

/-- A decoded Python JSON value: the result type of `json.loads`.  Object
payloads are association lists with the key lookup/insert/delete semantics
of Python dicts given below; floats are carried as exact rationals. -/
inductive JVal where
  | null
  | jbool (b : Bool)
  | jint (n : Int)
  | jflt (q : ℚ)
  | jstr (s : List Char)
  | jarr (xs : List JVal)
  | jobj (kvs : List (List Char × JVal))

instance : Inhabited JVal := ⟨JVal.null⟩

/-- Python dict lookup `d.get(k)` / `d[k]`: value of the first entry with
the given key. -/
def pyGet {α : Type} : List (List Char × α) → List Char → Option α
  | [], _ => none
  | (k', v) :: t, k => if k' = k then some v else pyGet t k

/-- Python dict store `d[k] = v`: replace the value in place if the key is
present, keeping its position, else append a new entry. -/
def pySet {α : Type} : List (List Char × α) → List Char → α → List (List Char × α)
  | [], k, v => [(k, v)]
  | (k', v') :: t, k, v => if k' = k then (k, v) :: t else (k', v') :: pySet t k v

/-- Python dict delete `del d[k]` for a key known to be present (a no-op
when it is absent, which is how `process_all_personas` guards the call). -/
def pyDel {α : Type} : List (List Char × α) → List Char → List (List Char × α)
  | [], _ => []
  | (k', v') :: t, k => if k' = k then t else (k', v') :: pyDel t k

/-- Python `k in d`. -/
def pyHasKey {α : Type} (d : List (List Char × α)) (k : List Char) : Bool := (pyGet d k).isSome

/-! ## The JSON parser (`json.loads` / `JSONDecoder.raw_decode`)

Standard JSON grammar as accepted by Python's `json` module scanner in
strict mode: literals `null`/`true`/`false`, double-quoted strings with the
usual escapes, numbers `-?(0|[1-9][0-9]*)(\.[0-9]+)?([eE][+-]?[0-9]+)?`,
arrays and objects; whitespace between tokens is space, tab, newline or
carriage return.  Duplicate object keys collapse through Python's
`dict(pairs)`, i.e. a later value overwrites at the first key position. -/

/-- JSON inter-token whitespace (Python `json` `_w` class `[ \t\n\r]`). -/
def jsonWs (c : Char) : Bool := c = ' ' || c = '\t' || c = '\n' || c = '\r'

/-- Value of one hexadecimal digit, as accepted by a JSON `\u` escape. -/
def hexVal (c : Char) : Option Nat :=
  if 48 ≤ c.toNat ∧ c.toNat ≤ 57 then some (c.toNat - 48)
  else if 97 ≤ c.toNat ∧ c.toNat ≤ 102 then some (c.toNat - 87)
  else if 65 ≤ c.toNat ∧ c.toNat ≤ 70 then some (c.toNat - 55)
  else none

/-- Parse the body of a JSON string, the opening quote already consumed;
returns the decoded characters and the remaining input.  A `\u` escape in
the surrogate range decodes through `Char.ofNat`'s fallback; no claim
exercises surrogates. -/
def parseStringBody : List Char → Option (List Char × List Char)
  | [] => none
  | c :: rest =>
    if c = '"' then some ([], rest)
    else if c = '\\' then
      match rest with
      | 'u' :: h1 :: h2 :: h3 :: h4 :: rest2 =>
        match hexVal h1, hexVal h2, hexVal h3, hexVal h4 with
        | some a, some b, some c3, some d4 =>
          match parseStringBody rest2 with
          | some (s, r) =>
            some (Char.ofNat (4096 * a + 256 * b + 16 * c3 + d4) :: s, r)
          | none => none
        | _, _, _, _ => none
      | e :: rest2 =>
        let dec : Option Char :=
          if e = '"' then some '"'
          else if e = '\\' then some '\\'
          else if e = '/' then some '/'
          else if e = 'b' then some (Char.ofNat 8)
          else if e = 'f' then some (Char.ofNat 12)
          else if e = 'n' then some '\n'
          else if e = 'r' then some '\r'
          else if e = 't' then some '\t'
          else none
        match dec with
        | some d =>
          match parseStringBody rest2 with
          | some (s, r) => some (d :: s, r)
          | none => none
        | none => none
      | [] => none
    else if c.toNat < 32 then none
    else
      match parseStringBody rest with
      | some (s, r) => some (c :: s, r)
      | none => none

/-- Numeric value of a list of decimal digit characters. -/
def digitsVal (cs : List Char) : Nat := cs.foldl (fun acc c => 10 * acc + (c.toNat - 48)) 0

/-- Parse a JSON number at the head of the input, per the scanner regex
`-?(0|[1-9][0-9]*)(\.[0-9]+)?([eE][+-]?[0-9]+)?`; an integer literal
decodes to a Python `int`, anything with a fraction or exponent to a
`float` (carried as the exact rational it denotes). -/
def parseNumber (cs : List Char) : Option (JVal × List Char) :=
  let (neg, cs1) : Bool × List Char :=
    match cs with
    | '-' :: t => (true, t)
    | _ => (false, cs)
  let intPart : Option (List Char × List Char) :=
    match cs1 with
    | '0' :: t => some (['0'], t)
    | c :: t =>
      if 49 ≤ c.toNat ∧ c.toNat ≤ 57 then
        some (c :: t.takeWhile isAsciiDigit, t.dropWhile isAsciiDigit)
      else none
    | [] => none
  match intPart with
  | none => none
  | some (ds, cs2) =>
    let (fracDs, cs3) : List Char × List Char :=
      match cs2 with
      | '.' :: t =>
        let f := t.takeWhile isAsciiDigit
        if f = [] then ([], cs2) else (f, t.dropWhile isAsciiDigit)
      | _ => ([], cs2)
    let expPart : Option (Bool × List Char × List Char) :=
      match cs3 with
      | c :: t =>
        if c = 'e' ∨ c = 'E' then
          match t with
          | '-' :: t2 =>
            let e := t2.takeWhile isAsciiDigit
            if e = [] then none else some (true, e, t2.dropWhile isAsciiDigit)
          | '+' :: t2 =>
            let e := t2.takeWhile isAsciiDigit
            if e = [] then none else some (false, e, t2.dropWhile isAsciiDigit)
          | t2 =>
            let e := t2.takeWhile isAsciiDigit
            if e = [] then none else some (false, e, t2.dropWhile isAsciiDigit)
        else none
      | [] => none
    match expPart with
    | some (eneg, eds, cs4) =>
      let mant : ℚ := (digitsVal (ds ++ fracDs) : ℚ) / (10 : ℚ) ^ fracDs.length
      let ex : ℚ := if eneg then ((10 : ℚ) ^ digitsVal eds)⁻¹ else (10 : ℚ) ^ digitsVal eds
      let q : ℚ := (if neg then -1 else 1) * mant * ex
      some (.jflt q, cs4)
    | none =>
      if fracDs = [] then
        some (.jint ((if neg then -1 else 1) * (digitsVal ds : Int)), cs2)
      else
        let q : ℚ := (if neg then (-1 : ℚ) else 1) * ((digitsVal (ds ++ fracDs) : ℚ) / (10 : ℚ) ^ fracDs.length)
        some (.jflt q, cs3)

mutual

/-- One fuel step of the JSON value scanner (`json.scanner.py_make_scanner`):
parse a value at the head of the input and return it with the unconsumed
rest.  The fuel only bounds nesting; callers pass more fuel than the input
length so that it never runs out on inputs the Python scanner accepts. -/
def parseVal : Nat → List Char → Option (JVal × List Char)
  | 0, _ => none
  | fuel + 1, cs =>
    match cs with
    | [] => none
    | c :: rest =>
      if c = '"' then
        match parseStringBody rest with
        | some (s, r) => some (.jstr s, r)
        | none => none
      else if c = '\x7b' then
        parseObjBody fuel (rest.dropWhile jsonWs) []
      else if c = '[' then
        match rest.dropWhile jsonWs with
        | ']' :: r => some (.jarr [], r)
        | r => parseArrElems fuel r []
      else if (S "true").isPrefixOf cs then some (.jbool true, cs.drop 4)
      else if (S "false").isPrefixOf cs then some (.jbool false, cs.drop 5)
      else if (S "null").isPrefixOf cs then some (.null, cs.drop 4)
      else parseNumber cs

/-- Parse the members of an object after `{` and leading whitespace: either
an immediate `}` (only legal while no member has been read, matching the
scanner), or `"key": value` pairs separated by commas.  The accumulated
pairs are collapsed through `dict(pairs)` on exit. -/
def parseObjBody : Nat → List Char → List (List Char × JVal) → Option (JVal × List Char)
  | 0, _, _ => none
  | _ + 1, [], _ => none
  | fuel + 1, c :: rest, acc =>
    if c = '\x7d' && acc.isEmpty then some (.jobj [], rest)
    else if c = '"' then
      match parseStringBody rest with
      | none => none
      | some (k, r1) =>
        match r1.dropWhile jsonWs with
        | ':' :: r2 =>
          match parseVal fuel (r2.dropWhile jsonWs) with
          | none => none
          | some (v, r3) =>
            match r3.dropWhile jsonWs with
            | ',' :: r4 => parseObjBody fuel (r4.dropWhile jsonWs) (acc ++ [(k, v)])
            | '\x7d' :: r4 => some (.jobj ((acc ++ [(k, v)]).foldl (fun m kv => pySet m kv.1 kv.2) []), r4)
            | _ => none
        | _ => none
    else none

/-- Parse the elements of a nonempty array after `[` and leading
whitespace: `value` items separated by commas, closed by `]`. -/
def parseArrElems : Nat → List Char → List JVal → Option (JVal × List Char)
  | 0, _, _ => none
  | fuel + 1, cs, acc =>
    match parseVal fuel cs with
    | none => none
    | some (v, r1) =>
      match r1.dropWhile jsonWs with
      | ',' :: r2 => parseArrElems fuel (r2.dropWhile jsonWs) (acc ++ [v])
      | ']' :: r2 => some (.jarr (acc ++ [v]), r2)
      | _ => none

end

/-- `JSONDecoder.raw_decode` called on text whose head is the candidate
value (the caller in `extract_json_from_output` always starts at a brace):
parse one JSON value at position 0 and report the end index.  The fuel
passed to the scanner exceeds what any accepted input can use (each
nesting level or separator consumes input characters). -/
def raw_decode (cs : List Char) : Option (JVal × Nat) :=
  match parseVal (2 * cs.length + 2) cs with
  | some (v, rest) => some (v, cs.length - rest.length)
  | none => none

/-- Python `json.loads`: skip leading whitespace, parse one value, and
require that only whitespace follows. -/
def json_loads (cs : List Char) : Option JVal :=
  let body := cs.dropWhile jsonWs
  match parseVal (2 * body.length + 2) body with
  | some (v, rest) => if rest.dropWhile jsonWs = [] then some v else none
  | none => none

/-! ## Python coercions used by the field mapper -/

/-- Whitespace stripped by Python around `int()`/`float()` string inputs. -/
def pyStripWs (cs : List Char) : List Char :=
  ((cs.dropWhile jsonWs).reverse.dropWhile jsonWs).reverse

/-- Digit groups with single underscores strictly between digits, as
Python numeric literals in `int(str)`/`float(str)` allow: `d (_? d)*`.
Returns the digits with underscores removed, or `none` on an illegal
shape. -/
def underscoredDigits : List Char → Option (List Char)
  | [] => none
  | [c] => if isAsciiDigit c then some [c] else none
  | c :: d :: rest =>
    if isAsciiDigit c then
      if d = '_' then
        match underscoredDigits rest with
        | some ds => some (c :: ds)
        | none => none
      else
        match underscoredDigits (d :: rest) with
        | some ds => some (c :: ds)
        | none => none
    else none

/-- Python `int(s)` on a string: optional surrounding whitespace, optional
sign, then underscore-grouped decimal digits; `none` models the
`ValueError` raised on any other shape. -/
def pyIntOfString (cs : List Char) : Option Int :=
  let body := pyStripWs cs
  let (neg, ds) : Bool × List Char :=
    match body with
    | '-' :: t => (true, t)
    | '+' :: t => (false, t)
    | t => (false, t)
  match underscoredDigits ds with
  | some digits => some ((if neg then -1 else 1) * (digitsVal digits : Int))
  | none => none

/-- The value classes a Python `float` can hold.  Finite values are exact
rationals; `inf` and `nan` arise from the corresponding string spellings
accepted by `float(s)`. -/
inductive PyFloat where
  | finite (q : ℚ)
  | inf (neg : Bool)
  | nan

/-- Lower-cased copy of an ASCII string (for `float(s)`'s case-insensitive
`inf`/`nan` spellings). -/
def asciiLower (cs : List Char) : List Char :=
  cs.map fun c => if 65 ≤ c.toNat ∧ c.toNat ≤ 90 then Char.ofNat (c.toNat + 32) else c

/-- A maximal run of digits and underscores, with the rest of the input. -/
def digitRun (u : List Char) : List Char × List Char :=
  (u.takeWhile (fun c => isAsciiDigit c || c = '_'), u.dropWhile (fun c => isAsciiDigit c || c = '_'))

/-- Python `float(s)`: optional surrounding whitespace and sign, then
either an `inf`/`infinity`/`nan` spelling or a decimal literal
`(d+ (. d*)? | . d+) ((e|E) sign? d+)?` with underscore grouping inside
each digit run; `none` models `ValueError`. -/
def pyFloatOfString (cs : List Char) : Option PyFloat :=
  let body := pyStripWs cs
  let (neg, t) : Bool × List Char :=
    match body with
    | '-' :: t => (true, t)
    | '+' :: t => (false, t)
    | t => (false, t)
  let low := asciiLower t
  if low = S "inf" ∨ low = S "infinity" then some (.inf neg)
  else if low = S "nan" then some .nan
  else
    let (ipRun, t1) := digitRun t
    match (if ipRun.isEmpty then some [] else underscoredDigits ipRun) with
    | none => none
    | some ipd =>
      let (fRun, t2) : List Char × List Char :=
        match t1 with
        | '.' :: t1' => digitRun t1'
        | _ => ([], t1)
      let dotted : Bool := match t1 with | '.' :: _ => true | _ => false
      match (if fRun.isEmpty then some [] else underscoredDigits fRun) with
      | none => none
      | some fpd =>
        if ipd.isEmpty && fpd.isEmpty then none
        else
          let t2' := if dotted then t2 else t1
          let mant : ℚ := (digitsVal (ipd ++ fpd) : ℚ) / (10 : ℚ) ^ fpd.length
          match t2' with
          | [] => some (.finite ((if neg then -1 else 1) * mant))
          | c :: t3 =>
            if c = 'e' ∨ c = 'E' then
              let (eneg, t4) : Bool × List Char :=
                match t3 with
                | '-' :: t4 => (true, t4)
                | '+' :: t4 => (false, t4)
                | t4 => (false, t4)
              let (eRun, t5) := digitRun t4
              match underscoredDigits eRun, t5 with
              | some eds, [] =>
                let ex : ℚ := if eneg then ((10 : ℚ) ^ digitsVal eds)⁻¹ else (10 : ℚ) ^ digitsVal eds
                some (.finite ((if neg then -1 else 1) * mant * ex))
              | _, _ => none
            else none

/-- Left-pad a digit string with zeros to the given width. -/
def padZeros (w : Nat) (ds : List Char) : List Char := List.replicate (w - ds.length) '0' ++ ds

/-- Text of a Python float, as `str(f)` renders it.  Python prints the
IEEE-754 shortest round-tripping decimal; the model carries exact
rationals instead and prints their exact decimal expansion (with a
documented fallback for rationals with no finite expansion, which no
value produced from a decimal literal can be).  No claim below depends on
this text. -/
def floatRepr : PyFloat → List Char
  | .inf true => S "-inf"
  | .inf false => S "inf"
  | .nan => S "nan"
  | .finite q =>
    let sgn : List Char := if q < 0 then ['-'] else []
    let a : ℚ := |q|
    if a.den = 1 then sgn ++ natToDec a.num.toNat ++ S ".0"
    else
      match (List.range 17).find? (fun k => (a * (10 : ℚ) ^ (k + 1)).den = 1) with
      | some k =>
        let m := (a * (10 : ℚ) ^ (k + 1)).num.toNat
        sgn ++ natToDec (m / 10 ^ (k + 1)) ++ ['.'] ++ padZeros (k + 1) (natToDec (m % 10 ^ (k + 1)))
      | none => sgn ++ natToDec a.num.toNat ++ ['/'] ++ natToDec a.den

mutual

/-- Python `repr` of a decoded JSON value (used by `str` on containers). -/
def pyRepr : JVal → List Char
  | .null => S "None"
  | .jbool b => if b then S "True" else S "False"
  | .jint n => intToDec n
  | .jflt q => floatRepr (.finite q)
  | .jstr s => '\'' :: s ++ ['\'']
  | .jarr xs => '[' :: pyReprList xs ++ [']']
  | .jobj kvs => '\x7b' :: pyReprKV kvs ++ ['\x7d']

def pyReprList : List JVal → List Char
  | [] => []
  | [x] => pyRepr x
  | x :: y :: xs => pyRepr x ++ S ", " ++ pyReprList (y :: xs)

def pyReprKV : List (List Char × JVal) → List Char
  | [] => []
  | [(k, v)] => '\'' :: k ++ S "': " ++ pyRepr v
  | (k, v) :: y :: xs => '\'' :: k ++ S "': " ++ pyRepr v ++ S ", " ++ pyReprKV (y :: xs)

end

/-- Python `str(value)` for a decoded JSON value: strings print their
characters, everything else prints as its `repr`. -/
def pyStr : JVal → List Char
  | .jstr s => s
  | v => pyRepr v

/-- Python `int(value)` on a decoded JSON value: ints pass through, bools
become 0/1, floats truncate toward zero, strings parse as decimal
integers; `none` models the `ValueError`/`TypeError` raised otherwise
(including on `None`, lists and dicts). -/
def pyToInt : JVal → Option Int
  | .jint n => some n
  | .jbool b => some (if b then 1 else 0)
  | .jflt q => some (Int.tdiv q.num q.den)
  | .jstr s => pyIntOfString s
  | _ => none

/-- Python `float(value)` on a decoded JSON value; `none` models the
raised `ValueError`/`TypeError`. -/
def pyToFloat : JVal → Option PyFloat
  | .jint n => some (.finite n)
  | .jbool b => some (.finite (if b then 1 else 0))
  | .jflt q => some (.finite q)
  | .jstr s => pyFloatOfString s
  | _ => none

/-! ## The extractor (`extract_json_from_output`, `src/utils.py`) -/

/-- Python regex `\s` over the ASCII range (the only characters the
claims exercise): space, tab, newline, carriage return, vertical tab,
form feed. -/
def isPySpace (c : Char) : Bool := jsonWs c || c = '\x0b' || c = '\x0c'

/-- Index of the leftmost occurrence of `pat` in the input. -/
def findSubstrIdx (pat : List Char) : List Char → Option Nat
  | [] => if pat.isPrefixOf ([] : List Char) then some 0 else none
  | c :: t => if pat.isPrefixOf (c :: t) then some 0 else (findSubstrIdx pat t).map (· + 1)

/-- The lookahead `(?=\s*[}\]]?\s*$)` of the fenced-region regex: the rest
of the input is whitespace with at most one `}` or `]` in it.  (`$` may
also match before a trailing newline; since `\s*` absorbs newlines the two
readings coincide.) -/
def fenceLookahead (r : List Char) : Bool :=
  match r.dropWhile isPySpace with
  | [] => true
  | c :: t => (c = '\x7d' || c = ']') && (t.dropWhile isPySpace).isEmpty

/-- A position terminates the lazy capture group `(.*?)` when `(?:```|…)`
matches there: a literal closing fence or the end-of-text lookahead. -/
def fenceTerm (r : List Char) : Bool := (S "```").isPrefixOf r || fenceLookahead r

/-- The lazy capture `(.*?)`: extend one character at a time until the
terminating alternation matches. -/
def lazyCapture : List Char → List Char
  | [] => []
  | c :: t => if fenceTerm (c :: t) then [] else c :: lazyCapture t

/-- `re.search(r"```json\s*(.*?)(?:```|(?=\s*[}\]]?\s*$))", text, re.DOTALL)`:
the pattern anchors at the leftmost literal ` ```json `, where a match
always exists; the greedy `\s*` takes all the following whitespace and the
lazy group stops at the first terminator position. -/
def fencedCapture (cs : List Char) : Option (List Char) :=
  match findSubstrIdx (S "```json") cs with
  | none => none
  | some i => some (lazyCapture ((cs.drop (i + 7)).dropWhile isPySpace))

/-- `extract_json_from_output` from `src/utils.py`: try the fenced-region
capture under a strict parse with the 33-field gate; then the first-brace
`raw_decode` fallback under the same gate; otherwise return the original
text unchanged. -/
def extract_json_from_output (text : List Char) : List Char :=
  let step1 : Option (List Char) :=
    match fencedCapture text with
    | some cap =>
      match json_loads cap with
      | some (.jobj kvs) => if kvs.length = 33 then some cap else none
      | _ => none
    | none => none
  match step1 with
  | some s => s
  | none =>
    match text.findIdx? (· = '\x7b') with
    | some i =>
      match raw_decode (text.drop i) with
      | some (.jobj kvs, endIdx) =>
        if kvs.length = 33 then (text.drop i).take endIdx else text
      | _ => text
    | none => text

/-- Field count of a decoded object (`len(parsed_json)` after the
`isinstance(parsed_json, dict)` test). -/
def objLen : JVal → Option Nat
  | .jobj kvs => some kvs.length
  | _ => none

/-- The per-item tail of `worker_process` (`src/main.py`): run the
extractor over the raw model output and `json.loads` the result; a parse
yields a `success` result carrying the record (which is then written to
`persona_<id>.json`), a `json.JSONDecodeError` yields a `json_error`
result. -/
def worker_classify (output_text : List Char) : List Char × Option JVal :=
  match json_loads (extract_json_from_output output_text) with
  | some parsed => (S "success", some parsed)
  | none => (S "json_error", none)

/-! ## RDF model and the field mapper (`src/converter.py`) -/

/-- An RDF node in object position: a URI reference or a typed literal. -/
inductive RDFNode where
  | uri (u : List Char)
  | lit (lex : List Char) (dtype : List Char)
  deriving DecidableEq

/-- One RDF statement of the working or main graph.  `rdflib.Graph` is a
triple set; the model keeps the insertion sequence, and every statement
below reads membership, which agrees with set semantics. -/
structure Triple where
  subj : List Char
  pred : List Char
  obj : RDFNode
  deriving DecidableEq

def RDF_type : List Char := S "http://www.w3.org/1999/02/22-rdf-syntax-ns#type"

def XSD_string : List Char := S "http://www.w3.org/2001/XMLSchema#string"

def XSD_integer : List Char := S "http://www.w3.org/2001/XMLSchema#integer"

def XSD_float : List Char := S "http://www.w3.org/2001/XMLSchema#float"

/-- The `EX` namespace `http://example.org/vocab#`. -/
def EX (name : List Char) : List Char := S "http://example.org/vocab#" ++ name

def EX_Persona : List Char := EX (S "Persona")

/-- `BASE = "http://example.org/persona/"`. -/
def personaURI (person_id : Int) : List Char := S "http://example.org/persona/" ++ intToDec person_id

def sourceURI (person_id : Int) : List Char :=
  S "https://huggingface.co/datasets/proj-persona/PersonaHub/viewer/persona/train?row=" ++ intToDec person_id

/-- `FIELD_DEFINITIONS`: canonical field name ↦ (value kind, predicate). -/
def FIELD_DEFINITIONS : List (List Char × List Char × List Char) := [
  (S "ability to speak english", S "string", S "abilityToSpeakEnglish"),
  (S "age", S "integer", S "age"),
  (S "ancestry", S "string", S "ancestry"),
  (S "big five scores", S "special_nested", S "bigFiveScores"),
  (S "citizenship", S "string", S "citizenship"),
  (S "class of worker", S "string", S "classOfWorker"),
  (S "cognitive difficulty", S "string", S "cognitiveDifficulty"),
  (S "defining quirks", S "string", S "definingQuirks"),
  (S "detailed job description", S "string", S "detailedJobDescription"),
  (S "disability", S "string", S "disability"),
  (S "education", S "string", S "education"),
  (S "employment status", S "string", S "employmentStatus"),
  (S "family presence and age", S "string", S "familyPresenceAndAge"),
  (S "fertility", S "string", S "fertility"),
  (S "health insurance", S "string", S "healthInsurance"),
  (S "hearing difficulty", S "string", S "hearingDifficulty"),
  (S "household language", S "string_or_list", S "householdLanguage"),
  (S "household type", S "string", S "householdType"),
  (S "ideology", S "string", S "ideology"),
  (S "income", S "float", S "income"),
  (S "industry category", S "string", S "industryCategory"),
  (S "lifestyle", S "string", S "lifestyle"),
  (S "mannerisms", S "string", S "mannerisms"),
  (S "marital status", S "string", S "maritalStatus"),
  (S "occupation category", S "string", S "occupationCategory"),
  (S "personal time", S "string", S "personalTime"),
  (S "place of birth", S "string", S "placeOfBirth"),
  (S "political views", S "string", S "politicalViews"),
  (S "race", S "string", S "race"),
  (S "religion", S "string", S "religion"),
  (S "sex", S "string", S "sex"),
  (S "veteran status", S "string", S "veteranStatus"),
  (S "vision difficulty", S "string", S "visionDifficulty"),
  (S "description", S "string", S "description")]

/-- Python `value is None`. -/
def JVal.isNull : JVal → Bool
  | .null => true
  | _ => false

/-- Python `isinstance(value, list)`, with the payload when it holds. -/
def JVal.asArr : JVal → Option (List JVal)
  | .jarr items => some items
  | _ => none

/-- The sub-mapping when the value is a dict, otherwise empty: the
`bfs_data` guard of the big-five branch. -/
def JVal.asObjD : JVal → List (List Char × JVal)
  | .jobj m => m
  | _ => []

/-- `process_single_field_to_rdf`: add the statement(s) for one schema
field to the working graph; returns the grown graph and the
`conversion_successful` flag (false exactly when a numeric coercion
failed, in which case a string-typed fallback statement is added). -/
def process_single_field_to_rdf (g : List Triple) (person_uri : List Char) (value : JVal)
    (intended_type : List Char) (rdf_predicate_name : List Char) : List Triple × Bool :=
  if value.isNull then (g, true)
  else
    let predicate := EX rdf_predicate_name
    if intended_type = S "string" then
      (g ++ [⟨person_uri, predicate, .lit (pyStr value) XSD_string⟩], true)
    else if intended_type = S "integer" then
      match pyToInt value with
      | some n => (g ++ [⟨person_uri, predicate, .lit (intToDec n) XSD_integer⟩], true)
      | none => (g ++ [⟨person_uri, predicate, .lit (pyStr value) XSD_string⟩], false)
    else if intended_type = S "float" then
      match pyToFloat value with
      | some f => (g ++ [⟨person_uri, predicate, .lit (floatRepr f) XSD_float⟩], true)
      | none => (g ++ [⟨person_uri, predicate, .lit (pyStr value) XSD_string⟩], false)
    else if intended_type = S "string_or_list" then
      match value.asArr with
      | some items =>
        (g ++ items.map (fun item => ⟨person_uri, predicate, .lit (pyStr item) XSD_string⟩), true)
      | none => (g ++ [⟨person_uri, predicate, .lit (pyStr value) XSD_string⟩], true)
    else (g, true)

/-- Trait predicate name: strip spaces, lower-case the first character. -/
def traitPredicateName (trait : List Char) : List Char :=
  match trait.filter (· ≠ ' ') with
  | [] => []
  | c :: rest => c.toLower :: rest

/-- One iteration of the `for key, value in data.items()` loop of
`convert_persona_json_to_rdf_graph`: the `big five scores` sub-mapping
(anything not a dict counts as empty) emits one string statement per
non-null trait score; every other schema key goes through
`process_single_field_to_rdf`; unknown keys are skipped. -/
def convertFieldStep (person_uri : List Char) (acc : List Triple × Bool)
    (kv : List Char × JVal) : List Triple × Bool :=
  let (g, warn) := acc
  if kv.1 = S "big five scores" then
    let bfs_data : List (List Char × JVal) := kv.2.asObjD
    (g ++ bfs_data.filterMap (fun ts =>
      match ts.2 with
      | .null => none
      | score => some ⟨person_uri, EX (traitPredicateName ts.1), .lit (pyStr score) XSD_string⟩), warn)
  else
    match pyGet FIELD_DEFINITIONS kv.1 with
    | some (intended_type, rdf_predicate_name) =>
      if intended_type = S "special_nested" then (g, warn)
      else
        let (g', ok) := process_single_field_to_rdf g person_uri kv.2 intended_type rdf_predicate_name
        (g', warn || !ok)
    | none => (g, warn)

/-- The field loop of `convert_persona_json_to_rdf_graph`, started from
the `type` and `source` statements with no warning recorded. -/
def convertFields (person_id : Int) (kvs : List (List Char × JVal)) : List Triple × Bool :=
  let person_uri := personaURI person_id
  kvs.foldl (convertFieldStep person_uri)
    ([⟨person_uri, RDF_type, .uri EX_Persona⟩, ⟨person_uri, EX (S "source"), .uri (sourceURI person_id)⟩], false)

/-- `convert_persona_json_to_rdf_graph`: `(None, False)` for empty or
non-dict data, `(None, True)` when a numeric field failed to coerce, and
`(graph, False)` on success.  The loop body is total here, so the
`except` branch returning `(None, False)` is unreachable in the model. -/
def convert_persona_json_to_rdf_graph (person_id : Int) (data : JVal) : Option (List Triple) × Bool :=
  match data with
  | .jobj kvs =>
    if kvs.isEmpty then (none, false)
    else
      let (g, warn) := convertFields person_id kvs
      if warn then (none, true) else (some g, false)
  | _ => (none, false)

/-! ## Loading, the worker wrapper and the persistent store -/

/-- `load_json_file`: a readable file whose text parses as JSON with a
dict root yields the dict; a missing/unreadable file, malformed JSON or a
non-dict root all yield `None` (the function catches those errors). -/
def load_json_file (content : Option (List Char)) : Option JVal :=
  match content with
  | none => none
  | some cs =>
    match json_loads cs with
    | some (.jobj kvs) => some (.jobj kvs)
    | _ => none

/-- `convert_and_get_result_wrapper`: the per-item worker body.  The
leading `assert_file_exists` raises `AssertionError` on a missing file —
modelled as the `Except.error` branch — before the `load_json_file` call
whose `None` result is tagged `load_error`.  All later outcomes are the
tagged triples the source returns. -/
def convert_and_get_result_wrapper (person_id : Int) (filepath : List Char)
    (content : Option (List Char)) : Except (List Char) (Int × Option (List Triple) × List Char) :=
  if content.isNone then .error (S "File does not exist: " ++ filepath)
  else
    match load_json_file content with
    | none => .ok (person_id, none, S "load_error")
    | some data =>
      match convert_persona_json_to_rdf_graph person_id data with
      | (some graph, _) => .ok (person_id, some graph, S "success")
      | (none, true) => .ok (person_id, none, S "conversion_warning")
      | (none, false) => .ok (person_id, none, S "conversion_error_or_empty_data")

/-- Python `s.split(sep)[-1]` for a single-character separator: the suffix
after the last occurrence (the whole string when absent). -/
def lastSlashSeg (cs : List Char) : List Char := (cs.reverse.takeWhile (· ≠ '/')).reverse

/-- `load_processed_persona_ids_from_rdf` applied to the parsed main
graph: ids of `type`-tagged Persona subjects whose URI ends in a decimal
segment; malformed subjects are skipped. -/
def load_processed_persona_ids_from_rdf (g : List Triple) : List Int :=
  g.filterMap fun t =>
    if t.pred = RDF_type ∧ t.obj = .uri EX_Persona then
      let seg := lastSlashSeg t.subj
      if pyIsDigit seg then some ((decToNat seg : Nat) : Int) else none
    else none

/-- Python `str.split` on one separator character. -/
def splitOnChar (sep : Char) (cs : List Char) : List (List Char) :=
  match cs with
  | [] => [[]]
  | x :: xs =>
    let r := splitOnChar sep xs
    if x = sep then [] :: r
    else
      match r with
      | [] => [[x]]
      | y :: ys => (x :: y) :: ys

/-- The filename filter of `process_all_personas`:
`f.startswith("persona_") and f.endswith(".json")`. -/
def isPersonaJsonName (f : List Char) : Bool :=
  (S "persona_").isPrefixOf f && (S ".json").isSuffixOf f

/-- Id extraction `int(filename.split("_")[1].split(".")[0])`, with
`none` standing for the caught `ValueError`/`IndexError`. -/
def parsePersonaId (filename : List Char) : Option Int :=
  match (splitOnChar '_' filename).get? 1 with
  | none => none
  | some seg =>
    match (splitOnChar '.' seg).head? with
    | none => none
    | some idStr => pyIntOfString idStr

/-- The input directory is modelled as a listing of filenames with their
readable content; `none` content is a file that exists in the listing but
can no longer be opened. -/
def readFile (dir : List (List Char × Option (List Char))) (f : List Char) : Option (List Char) :=
  (pyGet dir f).join

/-- Keep the first occurrence of every element (`set(...)` keeps one copy
of each pair; its iteration order is arbitrary, so the model keeps first
occurrences). -/
def dedupFirstAux {α : Type} [DecidableEq α] (seen : List α) : List α → List α
  | [] => []
  | x :: xs => if seen.contains x then dedupFirstAux seen xs else x :: dedupFirstAux (x :: seen) xs

/-- De-duplicate keeping first occurrences. -/
def dedupFirst {α : Type} [DecidableEq α] (l : List α) : List α := dedupFirstAux [] l

/-- Stable insertion by candidate id (`sorted(..., key=lambda x: x[0])`). -/
def insertById (a : Int × List Char) : List (Int × List Char) → List (Int × List Char)
  | [] => [a]
  | b :: t => if a.1 < b.1 then a :: b :: t else b :: insertById a t

/-- Stable sort by candidate id. -/
def sortById (l : List (Int × List Char)) : List (Int × List Char) := l.foldr insertById []

/-- The candidate selection of `process_all_personas`: every
`persona_*.json` name with a parsable id not already present in the main
graph, de-duplicated and sorted by id (Python sorts the set of pairs by
id; set iteration order is immaterial up to this stable sort). -/
def candidateList (main_graph : List Triple) (dir : List (List Char × Option (List Char))) :
    List (Int × List Char) :=
  let processed := load_processed_persona_ids_from_rdf main_graph
  let files := (dir.map Prod.fst).filter isPersonaJsonName
  let cands := files.filterMap fun f =>
    match parsePersonaId f with
    | some pid => if processed.contains pid then none else some (pid, f)
    | none => none
  sortById (dedupFirst cands)

/-- The two output files owned by `append_graphs_to_main_rdf`: the
destination `personas-db.ttl` and its temporary sibling, each carried as
the graph their serialized content denotes (`none` = absent or
unparseable). -/
structure OutFS where
  dest : Option (List Triple)
  tmp : Option (List Triple)
  deriving DecidableEq

/-- `append_graphs_to_main_rdf`: no-op when nothing is new; otherwise
merge all pending graphs into the in-memory graph, serialize to the
temporary path and atomically `os.replace` it over the destination.
`serializeOk = false` is the `except` branch: serialization (or the
replace) failed, the temporary file is removed, the destination keeps its
previous content. -/
def append_graphs_to_main_rdf (main_graph : List Triple) (new_graphs : List (List Triple))
    (fs : OutFS) (serializeOk : Bool) : List Triple × OutFS :=
  if new_graphs.isEmpty then (main_graph, fs)
  else
    let merged := new_graphs.foldl (· ++ ·) main_graph
    if serializeOk then (merged, ⟨some merged, none⟩)
    else (merged, ⟨fs.dest, none⟩)

/-- The unprocessed ledger: persona-id string ↦ stored entry. -/
abbrev Ledger := List (List Char × JVal)

/-- The ledger entry written when the original JSON cannot be reloaded
while recording a failure. -/
def errorReloadEntry (filepath status : List Char) : JVal :=
  .jobj [(S "error_reloading_original_json", .jstr (S "File not found or corrupted during failure handling.")),
         (S "original_filepath", .jstr filepath),
         (S "processing_status", .jstr status)]

/-- The ledger entry written by the collect loop's `except` handler when
retrieving or recording a result raised. -/
def criticalEntry (e filepath : List Char) : JVal :=
  .jobj [(S "critical_unhandled_error", .jstr e),
         (S "original_filepath", .jstr filepath),
         (S "processing_status", .jstr (S "unhandled_exception_in_main_thread"))]

/-- The failure branch of the collect loop: reload the original JSON; if
it loads, upsert the ledger entry unless an entry with the same
`processing_status` is already stored; if it does not load, store the
error payload.  A stored entry that is not a dict makes the `.get` call
raise `AttributeError`, which the surrounding `except` converts to the
critical entry. -/
def handleFailure (dir : List (List Char × Option (List Char))) (ledger : Ledger)
    (person_id : Int) (filepath status : List Char) : Ledger :=
  let pidKey := intToDec person_id
  match load_json_file (readFile dir filepath) with
  | some (.jobj kvs) =>
    match pyGet ledger pidKey with
    | none => pySet ledger pidKey (.jobj (pySet kvs (S "processing_status") (.jstr status)))
    | some (.jobj ekvs) =>
      let differs : Bool :=
        match pyGet ekvs (S "processing_status") with
        | some (.jstr s) => decide (s ≠ status)
        | _ => true
      if differs then pySet ledger pidKey (.jobj (pySet kvs (S "processing_status") (.jstr status)))
      else ledger
    | some _ => pySet ledger pidKey (criticalEntry (S "AttributeError") filepath)
  | _ => pySet ledger pidKey (errorReloadEntry filepath status)

/-- One iteration of the collect loop of `process_all_personas`: a raised
exception from the worker surfaces at `future.result()` and is recorded
as the critical entry; a `success` result appends the produced graph and
drops the ledger entry; any other status goes through `handleFailure`. -/
def processResultStep (dir : List (List Char × Option (List Char)))
    (acc : List (List Triple) × Ledger) (cand : Int × List Char) :
    List (List Triple) × Ledger :=
  let (newly, ledger) := acc
  match convert_and_get_result_wrapper cand.1 cand.2 (readFile dir cand.2) with
  | .error e => (newly, pySet ledger (intToDec cand.1) (criticalEntry e cand.2))
  | .ok (_, graphOpt, status) =>
    if status = S "success" then
      (newly ++ graphOpt.toList, pyDel ledger (intToDec cand.1))
    else
      (newly, handleFailure dir ledger cand.1 cand.2 status)

/-- `process_all_personas` over one filesystem snapshot: parse the main
file (absent or corrupt parses as the empty graph), select candidates,
convert them all, then commit the successful graphs and save the updated
ledger.  Result: contents of the main file and of the ledger file after
the run.  The early returns — no persona files at all, or no candidates —
leave both files untouched. -/
def process_all_personas (mainFile : Option (List Triple)) (ledger0 : Ledger)
    (dir : List (List Char × Option (List Char))) (serializeOk : Bool) :
    Option (List Triple) × Ledger :=
  let main_rdf_graph : List Triple := mainFile.getD []
  let files := (dir.map Prod.fst).filter isPersonaJsonName
  if files.isEmpty then (mainFile, ledger0)
  else
    let cands := candidateList main_rdf_graph dir
    if cands.isEmpty then (mainFile, ledger0)
    else
      let (newly, ledger1) := cands.foldl (processResultStep dir) ([], ledger0)
      let (_, fsAfter) := append_graphs_to_main_rdf main_rdf_graph newly ⟨mainFile, none⟩ serializeOk
      (fsAfter.dest, ledger1)



/-! ## Derived predicates and concrete inputs used by the statements -/

/-- The clean-coercion test for one record field, read off the schema: a
field of `integer` (resp. `float`) kind passes when its value is absent
(`null`) or coercible; fields of every other kind (including unknown keys
and the nested trait mapping) always pass. -/
def numericFieldOkB (kv : List Char × JVal) : Bool :=
  match pyGet FIELD_DEFINITIONS kv.1 with
  | some (intended_type, _) =>
    if intended_type = S "integer" then kv.2.isNull || (pyToInt kv.2).isSome
    else if intended_type = S "float" then kv.2.isNull || (pyToFloat kv.2).isSome
    else true
  | none => true

/-- Every integer- or float-kind field of the record coerces cleanly. -/
def recordNumericOk (kvs : List (List Char × JVal)) : Bool := kvs.all numericFieldOkB

/-- The graphs contributed to `newly_successful_graphs` by one candidate:
its converted graph when the worker reports `success`, nothing
otherwise. -/
def stepGraphDelta (dir : List (List Char × Option (List Char))) (cand : Int × List Char) :
    List (List Triple) :=
  match convert_and_get_result_wrapper cand.1 cand.2 (readFile dir cand.2) with
  | .ok (_, graphOpt, status) => if status = S "success" then graphOpt.toList else []
  | .error _ => []

/-- A brace-delimited JSON object with exactly 33 distinct keys
`k0 .. k32`. -/
def obj33Text : List Char :=
  '\x7b' :: (S ", ").intercalate ((List.range 33).map fun n => '"' :: 'k' :: natToDec n ++ S "\": 0") ++ ['\x7d']

/-- A brace-delimited JSON object with one key. -/
def smallObjText : List Char := S "\x7b\"zz\": 0\x7d"

/-- Model output holding two brace-delimited objects, the 33-key one
second. -/
def twoObjText : List Char := smallObjText ++ [' '] ++ obj33Text

/-- Field of the entry stored under a ledger key, when that entry is a
mapping (used to compare ledger states). -/
def entryField (o : Option JVal) (k : List Char) : Option JVal :=
  match o with
  | some (.jobj kvs) => pyGet kvs k
  | _ => none

/-! ## Lemmas -/

theorem decToNat_append (xs ys : List Char) :
    decToNat (xs ++ ys) = ys.foldl (fun acc c => 10 * acc + (c.toNat - 48)) (decToNat xs) := by
  simp [decToNat, List.foldl_append]

theorem digitChar_toNat {d : Nat} (h : d < 10) : (digitChar d).toNat = 48 + d := by
  interval_cases d <;> rfl

theorem natToDecFuel_decToNat : ∀ fuel n, n < fuel → decToNat (natToDecFuel fuel n) = n := by
  intro fuel
  induction fuel with
  | zero => intro n h; omega
  | succ f ih =>
    intro n h
    by_cases hn : n < 10
    · simp [natToDecFuel, hn, decToNat, digitChar_toNat hn]
    · have hdiv : n / 10 < f := by omega
      simp only [natToDecFuel, hn, if_false, decToNat_append, ih _ hdiv]
      have h10 : n % 10 < 10 := Nat.mod_lt _ (by omega)
      simp [decToNat, digitChar_toNat h10]
      omega

theorem decToNat_natToDec (n : Nat) : decToNat (natToDec n) = n :=
  natToDecFuel_decToNat _ _ (Nat.lt_succ_self n)

theorem natToDec_injective : Function.Injective natToDec := by
  intro a b h
  have := decToNat_natToDec a
  rw [h, decToNat_natToDec] at this
  omega

theorem natToDecFuel_digits : ∀ fuel n, n < fuel → ∀ c ∈ natToDecFuel fuel n, isAsciiDigit c := by
  intro fuel
  induction fuel with
  | zero => intro n h; omega
  | succ f ih =>
    intro n h c hc
    by_cases hn : n < 10
    · simp [natToDecFuel, hn] at hc
      subst hc
      simp [isAsciiDigit, digitChar_toNat hn]
      omega
    · simp only [natToDecFuel, hn, if_false, List.mem_append, List.mem_singleton] at hc
      rcases hc with hc | hc
      · exact ih _ (by omega) _ hc
      · subst hc
        have h10 : n % 10 < 10 := Nat.mod_lt _ (by omega)
        simp [isAsciiDigit, digitChar_toNat h10]
        omega

theorem natToDec_digits (n : Nat) : ∀ c ∈ natToDec n, isAsciiDigit c :=
  natToDecFuel_digits _ _ (Nat.lt_succ_self n)

theorem natToDec_ne_nil (n : Nat) : natToDec n ≠ [] := by
  unfold natToDec natToDecFuel
  by_cases hn : n < 10 <;> simp [hn]

theorem intToDec_injective : Function.Injective intToDec := by
  intro a b h
  cases a with
  | ofNat m =>
    cases b with
    | ofNat k =>
      simpa using congrArg Int.ofNat (natToDec_injective (by simpa [intToDec] using h))
    | negSucc k =>
      exfalso
      have hm := natToDec_digits m
      simp only [intToDec] at h
      have : '-' ∈ natToDec m := by rw [h]; simp
      have := hm _ this
      simp [isAsciiDigit] at this
  | negSucc m =>
    cases b with
    | ofNat k =>
      exfalso
      have hk := natToDec_digits k
      simp only [intToDec] at h
      have : '-' ∈ natToDec k := by rw [← h]; simp
      have := hk _ this
      simp [isAsciiDigit] at this
    | negSucc k =>
      simp only [intToDec, List.cons.injEq, true_and] at h
      have := natToDec_injective h
      simp only [Int.negSucc.injEq]
      omega

theorem pyGet_pySet_ne {α : Type} (d : List (List Char × α)) (k k' : List Char) (v : α)
    (h : k' ≠ k) : pyGet (pySet d k v) k' = pyGet d k' := by
  induction d with
  | nil => simp [pySet, pyGet, h, Ne.symm h]
  | cons hd t ih =>
    obtain ⟨k0, v0⟩ := hd
    by_cases hk : k0 = k
    · subst hk
      simp [pySet, pyGet, h, Ne.symm h]
    · simp only [pySet, if_neg hk]
      by_cases hk' : k0 = k'
      · simp [pyGet, hk']
      · simp [pyGet, hk', ih]

theorem pyGet_pySet_self {α : Type} (d : List (List Char × α)) (k : List Char) (v : α) :
    pyGet (pySet d k v) k = some v := by
  induction d with
  | nil => simp [pySet, pyGet]
  | cons hd t ih =>
    obtain ⟨k0, v0⟩ := hd
    by_cases hk : k0 = k
    · subst hk; simp [pySet, pyGet]
    · simp [pySet, hk, pyGet, ih]

theorem pyGet_pyDel_ne {α : Type} (d : List (List Char × α)) (k k' : List Char)
    (h : k' ≠ k) : pyGet (pyDel d k) k' = pyGet d k' := by
  induction d with
  | nil => simp [pyDel]
  | cons hd t ih =>
    obtain ⟨k0, v0⟩ := hd
    by_cases hk : k0 = k
    · subst hk
      simp [pyDel, pyGet, Ne.symm h]
    · simp only [pyDel, if_neg hk]
      by_cases hk' : k0 = k'
      · simp [pyGet, hk']
      · simp [pyGet, hk', ih]

theorem pyGet_mem {α : Type} {L : List (List Char × α)} {k : List Char} {v : α}
    (h : pyGet L k = some v) : (k, v) ∈ L := by
  induction L with
  | nil => simp [pyGet] at h
  | cons hd t ih =>
    obtain ⟨k0, v0⟩ := hd
    by_cases hk : k0 = k
    · subst hk
      simp only [pyGet, if_true, Option.some.injEq, if_pos] at h
      subst h
      exact List.mem_cons_self _ _
    · simp only [pyGet, if_neg hk] at h
      exact List.mem_cons_of_mem _ (ih h)

theorem pySet_keys_subset {α : Type} (L : List (List Char × α)) (k : List Char) (v : α) :
    ∀ k', k' ∈ (pySet L k v).map Prod.fst → k' ∈ L.map Prod.fst ∨ k' = k := by
  induction L with
  | nil => simp [pySet]
  | cons hd t ih =>
    obtain ⟨k0, v0⟩ := hd
    intro k' hk'
    by_cases hk : k0 = k
    · subst hk
      simp only [pySet, if_true, List.map_cons, List.mem_cons, if_pos] at hk' ⊢
      tauto
    · simp only [pySet, if_neg hk, List.map_cons, List.mem_cons] at hk' ⊢
      rcases hk' with h | h
      · exact Or.inl (Or.inl h)
      · rcases ih k' h with h2 | h2
        · exact Or.inl (Or.inr h2)
        · exact Or.inr h2

theorem pySet_keys_nodup {α : Type} {L : List (List Char × α)} (k : List Char) (v : α)
    (h : (L.map Prod.fst).Nodup) : ((pySet L k v).map Prod.fst).Nodup := by
  induction L with
  | nil => simp [pySet]
  | cons hd t ih =>
    obtain ⟨k0, v0⟩ := hd
    simp only [List.map_cons, List.nodup_cons] at h
    by_cases hk : k0 = k
    · subst hk
      simp only [pySet, if_pos, if_true, List.map_cons, List.nodup_cons]
      exact h
    · simp only [pySet, if_neg hk, List.map_cons, List.nodup_cons]
      refine ⟨fun hc => ?_, ih h.2⟩
      rcases pySet_keys_subset t k v k0 hc with h2 | h2
      · exact h.1 h2
      · exact hk h2

theorem pyDel_keys_nodup {α : Type} {L : List (List Char × α)} (k : List Char)
    (h : (L.map Prod.fst).Nodup) : ((pyDel L k).map Prod.fst).Nodup := by
  induction L with
  | nil => simp [pyDel]
  | cons hd t ih =>
    obtain ⟨k0, v0⟩ := hd
    simp only [List.map_cons, List.nodup_cons] at h
    by_cases hk : k0 = k
    · subst hk
      simpa [pyDel] using h.2
    · simp only [pyDel, if_neg hk, List.map_cons, List.nodup_cons]
      refine ⟨fun hc => ?_, ih h.2⟩
      have : k0 ∈ t.map Prod.fst := by
        clear ih h
        induction t with
        | nil => simpa [pyDel] using hc
        | cons hd2 t2 ih2 =>
          obtain ⟨k1, v1⟩ := hd2
          by_cases hk1 : k1 = k
          · subst hk1
            simp only [pyDel, if_pos rfl, List.map_cons, List.mem_cons] at hc ⊢
            exact Or.inr hc
          · simp only [pyDel, if_neg hk1, List.map_cons, List.mem_cons] at hc ⊢
            tauto
      exact h.1 this

theorem pyGet_pyDel_self {α : Type} {L : List (List Char × α)} (k : List Char)
    (h : (L.map Prod.fst).Nodup) : pyGet (pyDel L k) k = none := by
  induction L with
  | nil => simp [pyDel, pyGet]
  | cons hd t ih =>
    obtain ⟨k0, v0⟩ := hd
    simp only [List.map_cons, List.nodup_cons] at h
    by_cases hk : k0 = k
    · subst hk
      simp only [pyDel, if_pos rfl]
      cases hg : pyGet t k0 with
      | none => exact hg
      | some v =>
        exact absurd (List.mem_map_of_mem Prod.fst (pyGet_mem hg)) h.1
    · simp [pyDel, hk, pyGet, ih h.2]

theorem mem_insertById {a b : Int × List Char} {l : List (Int × List Char)} :
    b ∈ insertById a l ↔ b = a ∨ b ∈ l := by
  induction l with
  | nil => simp [insertById]
  | cons hd t ih =>
    by_cases hlt : a.1 < hd.1
    · simp [insertById, hlt]
    · simp only [insertById, if_neg hlt, List.mem_cons, ih]
      tauto

theorem mem_sortById {a : Int × List Char} {l : List (Int × List Char)} :
    a ∈ sortById l ↔ a ∈ l := by
  induction l with
  | nil => simp [sortById]
  | cons hd t ih =>
    simp only [sortById, List.foldr_cons, mem_insertById, List.mem_cons]
    rw [show t.foldr insertById [] = sortById t from rfl, ih]

theorem mem_dedupFirstAux {α : Type} [DecidableEq α] {a : α} {seen l : List α}
    (h : a ∈ dedupFirstAux seen l) : a ∈ l := by
  induction l generalizing seen with
  | nil => simpa [dedupFirstAux] using h
  | cons hd t ih =>
    simp only [dedupFirstAux] at h
    by_cases hc : seen.contains hd
    · simp only [hc, if_pos rfl] at h
      exact List.mem_cons_of_mem _ (ih h)
    · simp only [hc] at h
      rcases List.mem_cons.mp h with h1 | h1
      · simp [h1]
      · exact List.mem_cons_of_mem _ (ih h1)

theorem mem_dedupFirst {α : Type} [DecidableEq α] {a : α} {l : List α}
    (h : a ∈ dedupFirst l) : a ∈ l := mem_dedupFirstAux h

theorem takeWhile_append_all {α : Type} (p : α → Bool) (xs ys : List α)
    (h : ∀ x ∈ xs, p x) : (xs ++ ys).takeWhile p = xs ++ ys.takeWhile p := by
  induction xs with
  | nil => simp
  | cons hd t ih =>
    have hp : p hd := h hd (List.mem_cons_self _ _)
    simp only [List.cons_append, List.takeWhile_cons, hp, if_true, if_pos]
    rw [ih fun x hx => h x (List.mem_cons_of_mem _ hx)]

theorem foldl_concat_join {α : Type} (l : List (List α)) (a : List α) :
    l.foldl (· ++ ·) a = a ++ l.flatten := by
  induction l generalizing a with
  | nil => simp
  | cons hd t ih => simp [List.foldl_cons, ih, List.append_assoc]

theorem psf_fst (g : List Triple) (puri : List Char) (v : JVal) (ity pname : List Char) :
    ∃ d, (process_single_field_to_rdf g puri v ity pname).1 = g ++ d ∧ ∀ t ∈ d, t.subj = puri := by
  unfold process_single_field_to_rdf
  by_cases h0 : v.isNull
  · exact ⟨[], by simp [h0], by simp⟩
  simp only [h0, if_false, Bool.false_eq_true]
  split_ifs with h1 h2 h3 h4
  · exact ⟨_, rfl, by simp⟩
  · cases hv : pyToInt v
    · exact ⟨_, rfl, by simp⟩
    · exact ⟨_, rfl, by simp⟩
  · cases hv : pyToFloat v
    · exact ⟨_, rfl, by simp⟩
    · exact ⟨_, rfl, by simp⟩
  · cases hv : v.asArr with
    | none => exact ⟨_, rfl, by simp⟩
    | some items =>
      refine ⟨_, rfl, ?_⟩
      intro t ht
      rcases List.mem_map.mp ht with ⟨item, _, rfl⟩
      rfl
  · exact ⟨[], (List.append_nil g).symm, by simp⟩

theorem psf_snd (g : List Triple) (puri : List Char) (v : JVal) (ity pname : List Char) :
    (process_single_field_to_rdf g puri v ity pname).2 =
      (if ity = S "integer" then v.isNull || (pyToInt v).isSome
       else if ity = S "float" then v.isNull || (pyToFloat v).isSome
       else true) := by
  unfold process_single_field_to_rdf
  by_cases h0 : v.isNull
  · simp only [h0, if_true, if_pos, Bool.true_or]
    split_ifs <;> rfl
  simp only [h0, if_false, Bool.false_eq_true, Bool.false_or]
  by_cases h1 : ity = S "string"
  · subst h1
    rw [if_pos rfl, if_neg (by decide), if_neg (by decide)]
  simp only [if_neg h1]
  by_cases h2 : ity = S "integer"
  · simp only [if_pos h2]
    cases hv : pyToInt v <;> simp [hv]
  simp only [if_neg h2]
  by_cases h3 : ity = S "float"
  · simp only [if_pos h3]
    cases hv : pyToFloat v <;> simp [hv]
  simp only [if_neg h3]
  by_cases h4 : ity = S "string_or_list"
  · simp only [if_pos h4]
    cases hv : v.asArr <;> simp [hv]
  · simp only [if_neg h4]

theorem convertFieldStep_fst (puri : List Char) (g : List Triple) (warn : Bool)
    (kv : List Char × JVal) :
    ∃ d, (convertFieldStep puri (g, warn) kv).1 = g ++ d ∧ ∀ t ∈ d, t.subj = puri := by
  unfold convertFieldStep
  by_cases hbfs : kv.1 = S "big five scores"
  · simp only [hbfs, if_pos]
    refine ⟨_, rfl, ?_⟩
    intro t ht
    rcases List.mem_filterMap.mp ht with ⟨ts, _, hf⟩
    obtain ⟨ta, tb⟩ := ts
    cases tb
    · simp_all
    all_goals injection hf with hf
    all_goals rw [← hf]
  · simp only [hbfs, if_false]
    cases hdef : pyGet FIELD_DEFINITIONS kv.1 with
    | none => exact ⟨[], (List.append_nil g).symm, by simp⟩
    | some def0 =>
      obtain ⟨ity, pname⟩ := def0
      by_cases hsp : ity = S "special_nested"
      · simp only [hsp, if_pos]
        exact ⟨[], (List.append_nil g).symm, by simp⟩
      · simp only [if_neg hsp]
        rcases psf_fst g puri kv.2 ity pname with ⟨d, hd, hsubj⟩
        exact ⟨d, by rw [← hd], hsubj⟩

theorem convertFieldStep_snd (puri : List Char) (g : List Triple) (warn : Bool)
    (kv : List Char × JVal) :
    (convertFieldStep puri (g, warn) kv).2 = (warn || !numericFieldOkB kv) := by
  unfold convertFieldStep numericFieldOkB
  by_cases hbfs : kv.1 = S "big five scores"
  · have hdef : pyGet FIELD_DEFINITIONS kv.1 = some (S "special_nested", S "bigFiveScores") := by
      rw [hbfs]; rfl
    rw [hdef]
    simp [hbfs, if_pos, (by decide : ¬S "special_nested" = S "integer"),
      (by decide : ¬S "special_nested" = S "float")]
  · simp only [hbfs, if_false]
    cases hdef : pyGet FIELD_DEFINITIONS kv.1 with
    | none => simp
    | some def0 =>
      obtain ⟨ity, pname⟩ := def0
      by_cases hsp : ity = S "special_nested"
      · subst hsp
        dsimp only
        rw [if_pos rfl, if_neg (by decide), if_neg (by decide)]
        simp
      · dsimp only
        rw [if_neg hsp, psf_snd g puri kv.2 ity pname]

theorem convertFold_delta (puri : List Char) :
    ∀ (kvs : List (List Char × JVal)) (g : List Triple) (warn : Bool),
    ∃ d, kvs.foldl (convertFieldStep puri) (g, warn) = (g ++ d, warn || !kvs.all numericFieldOkB)
      ∧ ∀ t ∈ d, t.subj = puri := by
  intro kvs
  induction kvs with
  | nil => exact fun g warn => ⟨[], by simp, by simp⟩
  | cons kv rest ih =>
    intro g warn
    rcases convertFieldStep_fst puri g warn kv with ⟨d1, hd1, hs1⟩
    have hstep : convertFieldStep puri (g, warn) kv = (g ++ d1, warn || !numericFieldOkB kv) := by
      rcases hstep2 : convertFieldStep puri (g, warn) kv with ⟨a, b⟩
      have := convertFieldStep_snd puri g warn kv
      rw [hstep2] at this hd1
      simp only at hd1 this
      rw [hd1, this]
    rcases ih (g ++ d1) (warn || !numericFieldOkB kv) with ⟨d2, hd2, hs2⟩
    refine ⟨d1 ++ d2, ?_, ?_⟩
    · rw [List.foldl_cons, hstep, hd2]
      simp only [List.append_assoc, List.all_cons]
      congr 1
      cases warn <;> cases hx : numericFieldOkB kv <;> cases hy : rest.all numericFieldOkB <;> simp
    · intro t ht
      rcases List.mem_append.mp ht with h | h
      · exact hs1 t h
      · exact hs2 t h

theorem convertFields_eq (person_id : Int) (kvs : List (List Char × JVal)) :
    ∃ d, convertFields person_id kvs =
      ([⟨personaURI person_id, RDF_type, .uri EX_Persona⟩,
        ⟨personaURI person_id, EX (S "source"), .uri (sourceURI person_id)⟩] ++ d,
       !recordNumericOk kvs) ∧ ∀ t ∈ d, t.subj = personaURI person_id := by
  rcases convertFold_delta (personaURI person_id) kvs
      [⟨personaURI person_id, RDF_type, .uri EX_Persona⟩,
       ⟨personaURI person_id, EX (S "source"), .uri (sourceURI person_id)⟩] false with ⟨d, hd, hs⟩
  exact ⟨d, by rw [convertFields, hd]; simp [recordNumericOk], hs⟩

theorem convertFields_subjects (person_id : Int) (kvs : List (List Char × JVal)) :
    ∀ t ∈ (convertFields person_id kvs).1, t.subj = personaURI person_id := by
  rcases convertFields_eq person_id kvs with ⟨d, hd, hs⟩
  rw [hd]
  intro t ht
  rcases List.mem_append.mp ht with h | h
  · simp only [List.mem_cons, List.not_mem_nil, or_false] at h
    rcases h with rfl | rfl <;> rfl
  · exact hs t h

theorem convertFields_type_mem (person_id : Int) (kvs : List (List Char × JVal)) :
    (⟨personaURI person_id, RDF_type, .uri EX_Persona⟩ : Triple) ∈ (convertFields person_id kvs).1 := by
  rcases convertFields_eq person_id kvs with ⟨d, hd, _⟩
  rw [hd]
  simp

theorem convert_graph_of_ok (person_id : Int) (kvs : List (List Char × JVal))
    (hne : kvs ≠ []) (hok : recordNumericOk kvs = true) :
    convert_persona_json_to_rdf_graph person_id (.jobj kvs) =
      (some (convertFields person_id kvs).1, false) := by
  unfold convert_persona_json_to_rdf_graph
  have hemp : kvs.isEmpty = false := by
    cases kvs
    · exact absurd rfl hne
    · rfl
  rcases convertFields_eq person_id kvs with ⟨d, hd, _⟩
  simp only [hemp, Bool.false_eq_true, if_false, hd, hok]
  simp [hd]

theorem convert_none_of_warn (person_id : Int) (kvs : List (List Char × JVal))
    (hne : kvs ≠ []) (hok : recordNumericOk kvs = false) :
    convert_persona_json_to_rdf_graph person_id (.jobj kvs) = (none, true) := by
  unfold convert_persona_json_to_rdf_graph
  have hemp : kvs.isEmpty = false := by
    cases kvs
    · exact absurd rfl hne
    · rfl
  rcases convertFields_eq person_id kvs with ⟨d, hd, _⟩
  simp [hemp, hd, hok]

theorem convert_some_inv {person_id : Int} {data : JVal} {g : List Triple} {b : Bool}
    (h : convert_persona_json_to_rdf_graph person_id data = (some g, b)) :
    ∃ kvs, data = .jobj kvs ∧ g = (convertFields person_id kvs).1 ∧ b = false := by
  cases data <;> simp only [convert_persona_json_to_rdf_graph] at h
  case jobj kvs =>
    by_cases hemp : kvs.isEmpty
    · simp [hemp] at h
    · simp only [hemp, Bool.false_eq_true, if_false] at h
      rcases hcf : convertFields person_id kvs with ⟨gg, warn⟩
      rw [hcf] at h
      cases warn
      · simp only [Bool.false_eq_true, if_false, Prod.mk.injEq, Option.some.injEq] at h
        exact ⟨kvs, rfl, by rw [hcf, ← h.1], h.2.symm⟩
      · simp at h
  all_goals simp_all

theorem load_json_file_inv {ct : Option (List Char)} {d : JVal}
    (h : load_json_file ct = some d) : ∃ kvs, d = .jobj kvs := by
  cases ct with
  | none => simp [load_json_file] at h
  | some cs =>
    simp only [load_json_file] at h
    rcases hj : json_loads cs with _ | v
    · rw [hj] at h; simp at h
    · rw [hj] at h
      cases v <;> simp_all
      exact ⟨_, h.symm⟩

theorem load_json_file_content {ct : Option (List Char)} {d : JVal}
    (h : load_json_file ct = some d) : ct.isNone = false := by
  cases ct with
  | none => simp [load_json_file] at h
  | some cs => rfl

theorem wrapper_of_load {pid : Int} {fp : List Char} {ct : Option (List Char)}
    {r : List (List Char × JVal)}
    (hload : load_json_file ct = some (.jobj r)) (hne : r ≠ []) :
    convert_and_get_result_wrapper pid fp ct =
      (if recordNumericOk r then .ok (pid, some (convertFields pid r).1, S "success")
       else .ok (pid, none, S "conversion_warning")) := by
  unfold convert_and_get_result_wrapper
  rw [load_json_file_content hload]
  simp only [Bool.false_eq_true, if_false, hload]
  cases hok : recordNumericOk r
  · rw [convert_none_of_warn pid r hne hok]
    rfl
  · rw [convert_graph_of_ok pid r hne hok]
    rfl

theorem wrapper_load_error {pid : Int} {fp : List Char} {cs : List Char}
    (h : load_json_file (some cs) = none) :
    convert_and_get_result_wrapper pid fp (some cs) = .ok (pid, none, S "load_error") := by
  unfold convert_and_get_result_wrapper
  simp [h]

theorem wrapper_success_subjects {pid : Int} {fp : List Char} {ct : Option (List Char)}
    {a : Int} {g : List Triple} {st : List Char}
    (h : convert_and_get_result_wrapper pid fp ct = .ok (a, some g, st)) :
    ∀ t ∈ g, t.subj = personaURI pid := by
  unfold convert_and_get_result_wrapper at h
  by_cases hc : ct.isNone
  · simp [hc] at h
  simp only [hc, Bool.false_eq_true, if_false] at h
  rcases hl : load_json_file ct with _ | data
  · rw [hl] at h; simp at h
  rw [hl] at h
  rcases load_json_file_inv hl with ⟨kvs, rfl⟩
  dsimp only at h
  rcases hcv : convert_persona_json_to_rdf_graph pid (.jobj kvs) with ⟨og, b⟩
  rw [hcv] at h
  cases og with
  | some graph =>
    simp only [Except.ok.injEq, Prod.mk.injEq, Option.some.injEq] at h
    rcases convert_some_inv hcv with ⟨kvs2, heq, hg, -⟩
    obtain ⟨-, hgg, -⟩ := h
    injection heq with heq2
    subst heq2
    rw [← hgg, hg]
    exact convertFields_subjects pid kvs
  | none => cases b <;> simp_all

theorem processResultStep_fst (dir : List (List Char × Option (List Char)))
    (gs : List (List Triple)) (L : Ledger) (cand : Int × List Char) :
    (processResultStep dir (gs, L) cand).1 = gs ++ stepGraphDelta dir cand := by
  unfold processResultStep stepGraphDelta
  rcases hw : convert_and_get_result_wrapper cand.1 cand.2 (readFile dir cand.2) with e | ok
  · simp
  · obtain ⟨a, gopt, st⟩ := ok
    by_cases hst : st = S "success"
    · simp [hst]
    · simp [hst]

theorem collect_fold_fst (dir : List (List Char × Option (List Char)))
    (cs : List (Int × List Char)) :
    ∀ (gs : List (List Triple)) (L : Ledger),
    (cs.foldl (processResultStep dir) (gs, L)).1 = gs ++ (cs.map (stepGraphDelta dir)).flatten := by
  induction cs with
  | nil => intro gs L; simp
  | cons c rest ih =>
    intro gs L
    rcases hstep : processResultStep dir (gs, L) c with ⟨a, b⟩
    have ha : a = gs ++ stepGraphDelta dir c := by
      have := processResultStep_fst dir gs L c
      rw [hstep] at this
      exact this
    rw [List.foldl_cons, hstep, ih a b, ha]
    simp [List.append_assoc]

theorem handleFailure_other {dir : List (List Char × Option (List Char))} {L : Ledger}
    {pid : Int} {fp st k : List Char} (hk : k ≠ intToDec pid) :
    pyGet (handleFailure dir L pid fp st) k = pyGet L k := by
  unfold handleFailure
  dsimp only
  repeat' split
  all_goals first
    | rfl
    | exact pyGet_pySet_ne _ _ _ _ hk

theorem processResultStep_ledger_other (dir : List (List Char × Option (List Char)))
    (gs : List (List Triple)) (L : Ledger) (cand : Int × List Char) {k : List Char}
    (hk : k ≠ intToDec cand.1) :
    pyGet (processResultStep dir (gs, L) cand).2 k = pyGet L k := by
  unfold processResultStep
  rcases hw : convert_and_get_result_wrapper cand.1 cand.2 (readFile dir cand.2) with e | ok
  · exact pyGet_pySet_ne _ _ _ _ hk
  · obtain ⟨a, gopt, st⟩ := ok
    by_cases hst : st = S "success"
    · simp only [hst, if_pos]
      exact pyGet_pyDel_ne _ _ _ hk
    · simp only [hst, if_false]
      exact handleFailure_other hk

theorem collect_fold_ledger_other (dir : List (List Char × Option (List Char)))
    (cs : List (Int × List Char)) (k : List Char)
    (h : ∀ c ∈ cs, intToDec c.1 ≠ k) :
    ∀ (gs : List (List Triple)) (L : Ledger),
    pyGet (cs.foldl (processResultStep dir) (gs, L)).2 k = pyGet L k := by
  induction cs with
  | nil => intro gs L; rfl
  | cons c rest ih =>
    intro gs L
    rcases hstep : processResultStep dir (gs, L) c with ⟨a, b⟩
    rw [List.foldl_cons, hstep]
    have hb : pyGet b k = pyGet L k := by
      have := processResultStep_ledger_other dir gs L c
        (Ne.symm (h c (List.mem_cons_self _ _)))
      rw [hstep] at this
      exact this
    rw [ih (fun c' hc' => h c' (List.mem_cons_of_mem _ hc')) a b, hb]

theorem handleFailure_keys_nodup {dir : List (List Char × Option (List Char))} {L : Ledger}
    {pid : Int} {fp st : List Char} (h : (L.map Prod.fst).Nodup) :
    ((handleFailure dir L pid fp st).map Prod.fst).Nodup := by
  unfold handleFailure
  dsimp only
  repeat' split
  all_goals first
    | exact h
    | exact pySet_keys_nodup _ _ h

theorem processResultStep_keys_nodup (dir : List (List Char × Option (List Char)))
    (gs : List (List Triple)) (L : Ledger) (cand : Int × List Char)
    (h : (L.map Prod.fst).Nodup) :
    (((processResultStep dir (gs, L) cand).2).map Prod.fst).Nodup := by
  unfold processResultStep
  rcases hw : convert_and_get_result_wrapper cand.1 cand.2 (readFile dir cand.2) with e | ok
  · exact pySet_keys_nodup _ _ h
  · obtain ⟨a, gopt, st⟩ := ok
    by_cases hst : st = S "success"
    · simp only [hst, if_pos]
      exact pyDel_keys_nodup _ h
    · simp only [hst, if_false]
      exact handleFailure_keys_nodup h

theorem collect_fold_keys_nodup (dir : List (List Char × Option (List Char)))
    (cs : List (Int × List Char)) :
    ∀ (gs : List (List Triple)) (L : Ledger), (L.map Prod.fst).Nodup →
    (((cs.foldl (processResultStep dir) (gs, L)).2).map Prod.fst).Nodup := by
  induction cs with
  | nil => exact fun gs L h => h
  | cons c rest ih =>
    intro gs L h
    rcases hstep : processResultStep dir (gs, L) c with ⟨a, b⟩
    rw [List.foldl_cons, hstep]
    have hb : (b.map Prod.fst).Nodup := by
      have := processResultStep_keys_nodup dir gs L c h
      rw [hstep] at this
      exact this
    exact ih a b hb

theorem handleFailure_status {dir : List (List Char × Option (List Char))} {L : Ledger}
    {pid : Int} {fp st : List Char} {r : List (List Char × JVal)}
    (hload : load_json_file (readFile dir fp) = some (.jobj r))
    (hentry : pyGet L (intToDec pid) = none ∨ ∃ ekvs, pyGet L (intToDec pid) = some (.jobj ekvs)) :
    ∃ ekvs, pyGet (handleFailure dir L pid fp st) (intToDec pid) = some (.jobj ekvs) ∧
      pyGet ekvs (S "processing_status") = some (.jstr st) := by
  unfold handleFailure
  rw [hload]
  dsimp only
  rcases hentry with hent | ⟨ekvs, hent⟩
  · rw [hent]
    exact ⟨_, pyGet_pySet_self _ _ _, pyGet_pySet_self _ _ _⟩
  · rw [hent]
    dsimp only
    by_cases hdiff : (match pyGet ekvs (S "processing_status") with
      | some (.jstr s) => decide (s ≠ st)
      | _ => true) = true
    · rw [if_pos hdiff]
      exact ⟨_, pyGet_pySet_self _ _ _, pyGet_pySet_self _ _ _⟩
    · rw [if_neg hdiff]
      have hstored : pyGet ekvs (S "processing_status") = some (.jstr st) := by
        rcases hst2 : pyGet ekvs (S "processing_status") with _ | sv
        · rw [hst2] at hdiff
          simp at hdiff
        · rcases sv with _ | b2 | n2 | q2 | s2 | xs2 | kv2 <;> rw [hst2] at hdiff
          · exact absurd rfl hdiff
          · exact absurd rfl hdiff
          · exact absurd rfl hdiff
          · exact absurd rfl hdiff
          · simp only [decide_eq_true_eq, Decidable.not_not] at hdiff
            rw [hdiff]
          · exact absurd rfl hdiff
          · exact absurd rfl hdiff
      exact ⟨ekvs, hent, hstored⟩

theorem processResultStep_success_ledger (dir : List (List Char × Option (List Char)))
    (gs : List (List Triple)) (L : Ledger) (c : Int × List Char) {a : Int}
    {gopt : Option (List Triple)}
    (hw : convert_and_get_result_wrapper c.1 c.2 (readFile dir c.2) = .ok (a, gopt, S "success"))
    (h : (L.map Prod.fst).Nodup) :
    pyGet (processResultStep dir (gs, L) c).2 (intToDec c.1) = none := by
  unfold processResultStep
  rw [hw]
  dsimp only
  rw [if_pos rfl]
  exact pyGet_pyDel_self _ h

theorem processResultStep_warning_ledger (dir : List (List Char × Option (List Char)))
    (gs : List (List Triple)) (L : Ledger) (c : Int × List Char) {r : List (List Char × JVal)}
    (hload : load_json_file (readFile dir c.2) = some (.jobj r)) (hne : r ≠ [])
    (hok : recordNumericOk r = false)
    (hentry : pyGet L (intToDec c.1) = none ∨ ∃ ekvs, pyGet L (intToDec c.1) = some (.jobj ekvs)) :
    ∃ ekvs, pyGet (processResultStep dir (gs, L) c).2 (intToDec c.1) = some (.jobj ekvs) ∧
      pyGet ekvs (S "processing_status") = some (.jstr (S "conversion_warning")) := by
  unfold processResultStep
  rw [wrapper_of_load hload hne, hok]
  dsimp only
  rw [if_neg (by decide)]
  exact handleFailure_status hload hentry

theorem candidateList_mem_inv {g : List Triple} {dir : List (List Char × Option (List Char))}
    {pid : Int} {fp : List Char} (h : (pid, fp) ∈ candidateList g dir) :
    parsePersonaId fp = some pid ∧
    (load_processed_persona_ids_from_rdf g).contains pid = false ∧
    fp ∈ (dir.map Prod.fst).filter isPersonaJsonName := by
  unfold candidateList at h
  rcases List.mem_filterMap.mp (mem_dedupFirst (mem_sortById.mp h)) with ⟨f, hf, heq⟩
  rcases hp : parsePersonaId f with _ | pid2
  · rw [hp] at heq
    simp at heq
  · rw [hp] at heq
    dsimp only at heq
    by_cases hcont : (load_processed_persona_ids_from_rdf g).contains pid2
    · rw [if_pos hcont] at heq
      simp at heq
    · rw [if_neg hcont] at heq
      simp only [Option.some.injEq, Prod.mk.injEq] at heq
      obtain ⟨rfl, rfl⟩ := heq
      exact ⟨hp, by simpa using hcont, hf⟩

theorem candidateList_ne_nil_files {g : List Triple} {dir : List (List Char × Option (List Char))}
    (hc : candidateList g dir ≠ []) :
    ((dir.map Prod.fst).filter isPersonaJsonName).isEmpty = false := by
  by_cases hf : ((dir.map Prod.fst).filter isPersonaJsonName).isEmpty
  · exfalso
    apply hc
    unfold candidateList
    rw [List.isEmpty_iff] at hf
    rw [hf]
    rfl
  · simpa using hf

theorem process_all_personas_eq {mainFile : Option (List Triple)} {ledger0 : Ledger}
    {dir : List (List Char × Option (List Char))} {serOk : Bool}
    (hc : candidateList (mainFile.getD []) dir ≠ []) :
    process_all_personas mainFile ledger0 dir serOk =
      ((if ((candidateList (mainFile.getD []) dir).foldl (processResultStep dir) ([], ledger0)).1.isEmpty
          then mainFile
        else if serOk
          then some ((mainFile.getD []) ++
            ((candidateList (mainFile.getD []) dir).foldl (processResultStep dir) ([], ledger0)).1.flatten)
        else mainFile),
       ((candidateList (mainFile.getD []) dir).foldl (processResultStep dir) ([], ledger0)).2) := by
  unfold process_all_personas
  dsimp only
  rw [candidateList_ne_nil_files hc]
  simp only [Bool.false_eq_true, if_false]
  have hcs : (candidateList (mainFile.getD []) dir).isEmpty = false := by
    cases hx : candidateList (mainFile.getD []) dir
    · exact absurd hx hc
    · rfl
  rw [hcs]
  simp only [Bool.false_eq_true, if_false]
  rcases hres : (candidateList (mainFile.getD []) dir).foldl (processResultStep dir) ([], ledger0)
    with ⟨newly, ledger1⟩
  dsimp only
  unfold append_graphs_to_main_rdf
  by_cases hne2 : newly.isEmpty
  · simp only [hne2, if_pos]
  · simp only [hne2, Bool.false_eq_true, if_false]
    cases serOk
    · simp
    · rw [foldl_concat_join]
      simp

theorem stepGraphDelta_subjects {dir : List (List Char × Option (List Char))}
    {c : Int × List Char} :
    ∀ g ∈ stepGraphDelta dir c, ∀ t ∈ g, t.subj = personaURI c.1 := by
  unfold stepGraphDelta
  rcases hw : convert_and_get_result_wrapper c.1 c.2 (readFile dir c.2) with e | ok
  · simp
  · obtain ⟨a, gopt, st⟩ := ok
    by_cases hst : st = S "success"
    · simp only [hst, if_pos]
      cases gopt with
      | none => simp
      | some g0 =>
        intro g hg
        simp only [Option.toList_some, List.mem_singleton] at hg
        subst hg
        subst hst
        exact wrapper_success_subjects hw
    · simp [hst]

theorem personaURI_injective : Function.Injective personaURI := by
  intro a b h
  exact intToDec_injective (List.append_cancel_left h)

theorem newly_flatten_no_subject {dir : List (List Char × Option (List Char))}
    {cs l1 l2 : List (Int × List Char)} {pid : Int} {fp : List Char}
    (hsplit : cs = l1 ++ (pid, fp) :: l2)
    (hdelta : stepGraphDelta dir (pid, fp) = [])
    (hids : ∀ c' ∈ l1 ++ l2, c'.1 ≠ pid) :
    ∀ t ∈ ((cs.map (stepGraphDelta dir)).flatten).flatten, t.subj ≠ personaURI pid := by
  intro t ht hsubj
  rcases List.mem_flatten.mp ht with ⟨g, hg, htg⟩
  rcases List.mem_flatten.mp hg with ⟨gl, hgl, hggl⟩
  rcases List.mem_map.mp hgl with ⟨c, hc, rfl⟩
  have hsub := stepGraphDelta_subjects g hggl t htg
  have hcpid : c.1 = pid := personaURI_injective (by rw [← hsub, hsubj])
  rw [hsplit] at hc
  rcases List.mem_append.mp hc with h | h
  · exact hids c (List.mem_append_left _ h) hcpid
  rcases List.mem_cons.mp h with rfl | h
  · rw [hdelta] at hggl
    simp at hggl
  · exact hids c (List.mem_append_right _ h) hcpid

/-- C1 (amended): for a candidate persona whose artifact loads as a
non-empty record, in a run whose commit serialization succeeds, with the
candidate ids pairwise distinct, the persona's subject fresh in the
starting store and a well-formed starting ledger: statements for the
persona appear in the main store after the run if and only if every
integer- or float-kind field of the record coerced without error; and on
any coercion failure the persona is recorded in the saved ledger with
status `conversion_warning` (the original claim fails for the empty
record, see the counterexample). -/
theorem numeric_gate_commit_iff
    (mainFile : Option (List Triple)) (ledger0 : Ledger)
    (dir : List (List Char × Option (List Char)))
    (pid : Int) (fp : List Char) (r : List (List Char × JVal))
    (hmem : (pid, fp) ∈ candidateList (mainFile.getD []) dir)
    (huniq : (candidateList (mainFile.getD []) dir).Pairwise (fun a b => a.1 ≠ b.1))
    (hload : load_json_file (readFile dir fp) = some (.jobj r))
    (hne : r ≠ [])
    (hfresh : ∀ t ∈ mainFile.getD [], t.subj ≠ personaURI pid)
    (hkeys : (ledger0.map Prod.fst).Nodup)
    (hentries : ∀ kv ∈ ledger0, ∃ kvs, kv.2 = JVal.jobj kvs) :
    ((∃ g, (process_all_personas mainFile ledger0 dir true).1 = some g ∧
        ∃ t ∈ g, t.subj = personaURI pid) ↔ recordNumericOk r = true) ∧
    (recordNumericOk r = false →
      ∃ ekvs, pyGet (process_all_personas mainFile ledger0 dir true).2 (intToDec pid) =
          some (.jobj ekvs) ∧
        pyGet ekvs (S "processing_status") = some (.jstr (S "conversion_warning"))) := by
  have hc : candidateList (mainFile.getD []) dir ≠ [] := List.ne_nil_of_mem hmem
  rw [process_all_personas_eq hc]
  rcases List.append_of_mem hmem with ⟨l1, l2, hsplit⟩
  have hids : ∀ c' ∈ l1 ++ l2, c'.1 ≠ pid := by
    rw [hsplit] at huniq
    rcases List.pairwise_append.mp huniq with ⟨hp1, hp2, hcross⟩
    intro c' hc'
    rcases List.mem_append.mp hc' with h | h
    · exact hcross c' h (pid, fp) (List.mem_cons_self _ _)
    · exact fun he => ((List.pairwise_cons.mp hp2).1 c' h) he.symm
  have hfold_fst :
      ((candidateList (mainFile.getD []) dir).foldl (processResultStep dir) ([], ledger0)).1 =
        ((candidateList (mainFile.getD []) dir).map (stepGraphDelta dir)).flatten := by
    rw [collect_fold_fst]
    rfl
  cases hok : recordNumericOk r with
  | true =>
    have hwrap : convert_and_get_result_wrapper pid fp (readFile dir fp) =
        .ok (pid, some (convertFields pid r).1, S "success") := by
      rw [wrapper_of_load hload hne, hok]
      rfl
    have hdelta : stepGraphDelta dir (pid, fp) = [(convertFields pid r).1] := by
      unfold stepGraphDelta
      rw [hwrap]
      rfl
    have hmemG : (convertFields pid r).1 ∈
        ((candidateList (mainFile.getD []) dir).map (stepGraphDelta dir)).flatten := by
      apply List.mem_flatten.mpr
      exact ⟨_, List.mem_map_of_mem _ hmem, by rw [hdelta]; simp⟩
    constructor
    · constructor
      · intro _; rfl
      · intro _
        have hempty :
            (((candidateList (mainFile.getD []) dir).foldl (processResultStep dir)
              ([], ledger0)).1).isEmpty = false := by
          rw [hfold_fst]
          cases hx : ((candidateList (mainFile.getD []) dir).map (stepGraphDelta dir)).flatten
          · rw [hx] at hmemG; simp at hmemG
          · rfl
        rw [hempty]
        simp only [Bool.false_eq_true, if_false, if_pos]
        refine ⟨_, rfl, ⟨personaURI pid, RDF_type, .uri EX_Persona⟩, ?_, rfl⟩
        apply List.mem_append_right
        rw [hfold_fst]
        exact List.mem_flatten.mpr ⟨_, hmemG, convertFields_type_mem pid r⟩
    · intro hcontra
      simp at hcontra
  | false =>
    have hwrap : convert_and_get_result_wrapper pid fp (readFile dir fp) =
        .ok (pid, none, S "conversion_warning") := by
      rw [wrapper_of_load hload hne, hok]
      rfl
    have hdelta : stepGraphDelta dir (pid, fp) = [] := by
      unfold stepGraphDelta
      rw [hwrap]
      rfl
    have hnosubj := newly_flatten_no_subject hsplit hdelta hids
    constructor
    · constructor
      · rintro ⟨g, hg, t, htg, hsubj⟩
        exfalso
        by_cases hempty :
            (((candidateList (mainFile.getD []) dir).foldl (processResultStep dir)
              ([], ledger0)).1).isEmpty
        · rw [if_pos hempty] at hg
          cases mainFile with
          | none => simp at hg
          | some g0 =>
            injection hg with hg
            subst hg
            exact hfresh t htg hsubj
        · rw [if_neg (by simpa using hempty)] at hg
          simp only [if_pos] at hg
          injection hg with hg
          subst hg
          rcases List.mem_append.mp htg with h | h
          · exact hfresh t h hsubj
          · rw [hfold_fst] at h
            exact hnosubj t h hsubj
      · intro hcontra
        exact absurd hcontra (by simp)
    · intro _
      rw [hsplit, List.foldl_append, List.foldl_cons]
      have hids1 : ∀ c' ∈ l1, intToDec c'.1 ≠ intToDec pid := fun c' hc' he =>
        hids c' (List.mem_append_left _ hc') (intToDec_injective he)
      have hids2 : ∀ c' ∈ l2, intToDec c'.1 ≠ intToDec pid := fun c' hc' he =>
        hids c' (List.mem_append_right _ hc') (intToDec_injective he)
      rcases hacc1 : l1.foldl (processResultStep dir) ([], ledger0) with ⟨gs1, L1⟩
      have hL1 : pyGet L1 (intToDec pid) = pyGet ledger0 (intToDec pid) := by
        have := collect_fold_ledger_other dir l1 (intToDec pid) hids1 [] ledger0
        rw [hacc1] at this
        exact this
      have hentry : pyGet L1 (intToDec pid) = none ∨
          ∃ ekvs, pyGet L1 (intToDec pid) = some (.jobj ekvs) := by
        rw [hL1]
        cases hent : pyGet ledger0 (intToDec pid) with
        | none => exact Or.inl rfl
        | some v =>
          rcases hentries _ (pyGet_mem hent) with ⟨kvs, hv⟩
          simp only at hv
          subst hv
          exact Or.inr ⟨kvs, rfl⟩
      rcases hstep : processResultStep dir (gs1, L1) (pid, fp) with ⟨gs2, L2⟩
      have hstepL : ∃ ekvs, pyGet L2 (intToDec pid) = some (.jobj ekvs) ∧
          pyGet ekvs (S "processing_status") = some (.jstr (S "conversion_warning")) := by
        have := processResultStep_warning_ledger dir gs1 L1 (pid, fp) hload hne hok hentry
        rw [hstep] at this
        exact this
      have hl2 : pyGet ((l2.foldl (processResultStep dir) (gs2, L2)).2) (intToDec pid) =
          pyGet L2 (intToDec pid) :=
        collect_fold_ledger_other dir l2 (intToDec pid) hids2 gs2 L2
      rw [hl2]
      exact hstepL

theorem isAsciiDigit_ne_slash {c : Char} (h : isAsciiDigit c) : c ≠ '/' := by
  intro he
  subst he
  simp [isAsciiDigit] at h

theorem lastSlashSeg_personaURI (i : Int) : lastSlashSeg (personaURI i) = intToDec i := by
  have hds : ∀ c ∈ (intToDec i).reverse, (c ≠ '/' : Bool) := by
    intro c hc
    rw [List.mem_reverse] at hc
    cases i with
    | ofNat m =>
      simpa using isAsciiDigit_ne_slash (natToDec_digits m c hc)
    | negSucc m =>
      rcases List.mem_cons.mp hc with rfl | hc
      · simp
      · simpa using isAsciiDigit_ne_slash (natToDec_digits (m + 1) c hc)
  unfold lastSlashSeg personaURI
  rw [List.reverse_append, takeWhile_append_all _ _ _ hds]
  rw [show (S "http://example.org/persona/").reverse.takeWhile (fun c => c ≠ '/') = [] from rfl]
  simp

theorem pyIsDigit_natToDec (m : Nat) : pyIsDigit (natToDec m) = true := by
  unfold pyIsDigit
  rcases hx : natToDec m with _ | ⟨c, t⟩
  · exact absurd hx (natToDec_ne_nil m)
  · rw [← hx]
    have h1 : (natToDec m).isEmpty = false := by rw [hx]; rfl
    rw [h1]
    simpa using List.all_eq_true.mpr (natToDec_digits m)

theorem mem_processed_of_subjects {g : List Triple} {i n : Int}
    (hsubj : ∀ t ∈ g, t.subj = personaURI i)
    (hn : n ∈ load_processed_persona_ids_from_rdf g) : n = i := by
  unfold load_processed_persona_ids_from_rdf at hn
  rcases List.mem_filterMap.mp hn with ⟨t, ht, hf⟩
  by_cases hty : t.pred = RDF_type ∧ t.obj = .uri EX_Persona
  · rw [if_pos hty] at hf
    have hsub := hsubj t ht
    rw [hsub, lastSlashSeg_personaURI] at hf
    dsimp only at hf
    cases i with
    | ofNat m =>
      rw [show intToDec (Int.ofNat m) = natToDec m from rfl] at hf
      rw [pyIsDigit_natToDec, if_pos rfl] at hf
      injection hf with hf
      rw [← hf, decToNat_natToDec]
      rfl
    | negSucc m =>
      rw [show pyIsDigit (intToDec (Int.negSucc m)) = false from by
        simp [intToDec, pyIsDigit, isAsciiDigit], if_neg (by simp)] at hf
      simp at hf
  · rw [if_neg hty] at hf
    simp at hf

theorem load_processed_append (g1 g2 : List Triple) :
    load_processed_persona_ids_from_rdf (g1 ++ g2) =
      load_processed_persona_ids_from_rdf g1 ++ load_processed_persona_ids_from_rdf g2 := by
  unfold load_processed_persona_ids_from_rdf
  exact List.filterMap_append _ _ _

theorem candidateList_id_not_processed {g : List Triple}
    {dir : List (List Char × Option (List Char))} {c : Int × List Char}
    (hc : c ∈ candidateList g dir) :
    ∀ n ∈ load_processed_persona_ids_from_rdf g, c.1 ≠ n := by
  obtain ⟨cid, cfp⟩ := c
  rcases candidateList_mem_inv hc with ⟨-, hcont, -⟩
  intro n hn he
  rw [show (cid, cfp).1 = cid from rfl] at he
  subst he
  have htrue : (load_processed_persona_ids_from_rdf g).contains cid = true :=
    List.elem_eq_true_of_mem hn
  rw [htrue] at hcont
  exact absurd hcont (by simp)

theorem run_no_candidates {mainFile : Option (List Triple)} {ledger0 : Ledger}
    {dir : List (List Char × Option (List Char))} {serOk : Bool}
    (hc : candidateList (mainFile.getD []) dir = []) :
    process_all_personas mainFile ledger0 dir serOk = (mainFile, ledger0) := by
  unfold process_all_personas
  dsimp only
  by_cases hf : ((dir.map Prod.fst).filter isPersonaJsonName).isEmpty
  · rw [if_pos hf]
  · rw [if_neg hf, hc]
    rfl

theorem stepGraphDelta_success_inv {dir : List (List Char × Option (List Char))}
    {c : Int × List Char} (h : stepGraphDelta dir c ≠ []) :
    ∃ a gopt, convert_and_get_result_wrapper c.1 c.2 (readFile dir c.2) =
      .ok (a, gopt, S "success") := by
  unfold stepGraphDelta at h
  rcases hw : convert_and_get_result_wrapper c.1 c.2 (readFile dir c.2) with e | ok
  · rw [hw] at h
    simp at h
  · obtain ⟨a, gopt, st⟩ := ok
    rw [hw] at h
    by_cases hst : st = S "success"
    · subst hst
      exact ⟨a, gopt, rfl⟩
    · dsimp only at h
      rw [if_neg hst] at h
      simp at h

theorem newly_flatten_subject_candidate {dir : List (List Char × Option (List Char))}
    {cs : List (Int × List Char)} {t : Triple}
    (ht : t ∈ ((cs.map (stepGraphDelta dir)).flatten).flatten) :
    ∃ c ∈ cs, t.subj = personaURI c.1 ∧ stepGraphDelta dir c ≠ [] := by
  rcases List.mem_flatten.mp ht with ⟨g, hg, htg⟩
  rcases List.mem_flatten.mp hg with ⟨gl, hgl, hggl⟩
  rcases List.mem_map.mp hgl with ⟨c, hc, rfl⟩
  exact ⟨c, hc, stepGraphDelta_subjects g hggl t htg, fun hnil => by rw [hnil] at hggl; simp at hggl⟩

/-- C3: for every persona id already present as a type-tagged subject in
the main store at the start of a run, `process_all_personas` excludes the
id from the candidate set, and the statements about that persona's
subject in the main store file after the run are exactly those already
present before it — regardless of the content of `persona_<id>.json` in
the input directory (the directory is universally quantified, so this
covers any mutation of the artifact after the id was committed). -/
theorem resumability_no_reemit
    (mainFile : Option (List Triple)) (ledger0 : Ledger)
    (dir : List (List Char × Option (List Char))) (serOk : Bool) (pid : Int)
    (hproc : pid ∈ load_processed_persona_ids_from_rdf (mainFile.getD [])) :
    (∀ c ∈ candidateList (mainFile.getD []) dir, c.1 ≠ pid) ∧
    (∀ t : Triple, t.subj = personaURI pid →
      ((∃ g, (process_all_personas mainFile ledger0 dir serOk).1 = some g ∧ t ∈ g) ↔
       (∃ g0, mainFile = some g0 ∧ t ∈ g0))) := by
  have hids : ∀ c ∈ candidateList (mainFile.getD []) dir, c.1 ≠ pid :=
    fun c hc => candidateList_id_not_processed hc pid hproc
  refine ⟨hids, ?_⟩
  intro t hsubj
  by_cases hc : candidateList (mainFile.getD []) dir = []
  · rw [run_no_candidates hc]
  · rw [process_all_personas_eq hc]
    by_cases hempty : (((candidateList (mainFile.getD []) dir).foldl (processResultStep dir)
        ([], ledger0)).1).isEmpty
    · rw [if_pos hempty]
    · rw [if_neg (by simpa using hempty)]
      cases serOk with
      | false => rfl
      | true =>
        simp only [if_pos]
        have hnot : t ∉ (((candidateList (mainFile.getD []) dir).foldl (processResultStep dir)
            ([], ledger0)).1).flatten := by
          intro hmem
          have hfst : ((candidateList (mainFile.getD []) dir).foldl (processResultStep dir)
              ([], ledger0)).1 =
              ((candidateList (mainFile.getD []) dir).map (stepGraphDelta dir)).flatten := by
            rw [collect_fold_fst]
            rfl
          rw [hfst] at hmem
          rcases newly_flatten_subject_candidate hmem with ⟨c, hcmem, hcsubj, -⟩
          exact hids c hcmem (personaURI_injective (by rw [← hcsubj, hsubj]))
        constructor
        · rintro ⟨g, hg, htg⟩
          injection hg with hg
          subst hg
          rcases List.mem_append.mp htg with h | h
          · cases mainFile with
            | none => simp at h
            | some g0 => exact ⟨g0, rfl, h⟩
          · exact absurd h hnot
        · rintro ⟨g0, hg0, htg0⟩
          refine ⟨_, rfl, List.mem_append_left _ ?_⟩
          rw [hg0]
          exact htg0

theorem processed_singleton {t : Triple} {n i : Int}
    (hn : n ∈ load_processed_persona_ids_from_rdf [t])
    (hsubj : t.subj = personaURI i) : n = i :=
  mem_processed_of_subjects (fun t' ht' => by rcases List.mem_singleton.mp ht' with rfl; exact hsubj) hn

/-- C7 (amended): a run of `process_all_personas` preserves disjointness
of the main store and the ledger: if at the start no type-tagged persona
id of the main store keys an entry of the ledger, then after the run no
type-tagged persona id of the saved main store keys an entry of the saved
ledger (with pairwise-distinct candidate ids and a duplicate-free starting
ledger).  The original claim asserts the disjointness unconditionally
after every run, which fails when the pre-state already violates it, see
the counterexample. -/
theorem store_ledger_disjoint_preserved
    (mainFile : Option (List Triple)) (ledger0 : Ledger)
    (dir : List (List Char × Option (List Char))) (serOk : Bool)
    (hdisj : ∀ n : Int, n ∈ load_processed_persona_ids_from_rdf (mainFile.getD []) →
      pyGet ledger0 (intToDec n) = none)
    (huniq : (candidateList (mainFile.getD []) dir).Pairwise (fun a b => a.1 ≠ b.1))
    (hkeys : (ledger0.map Prod.fst).Nodup) :
    ∀ n : Int, (∃ g, (process_all_personas mainFile ledger0 dir serOk).1 = some g ∧
        n ∈ load_processed_persona_ids_from_rdf g) →
      pyGet (process_all_personas mainFile ledger0 dir serOk).2 (intToDec n) = none := by
  rintro n ⟨g, hg, hn⟩
  by_cases hc : candidateList (mainFile.getD []) dir = []
  · rw [run_no_candidates hc] at hg ⊢
    dsimp only at hg ⊢
    apply hdisj
    rw [hg]
    exact hn
  · rw [process_all_personas_eq hc] at hg ⊢
    dsimp only at hg ⊢
    have huntouched : n ∈ load_processed_persona_ids_from_rdf (mainFile.getD []) →
        pyGet (((candidateList (mainFile.getD []) dir).foldl (processResultStep dir)
          ([], ledger0)).2) (intToDec n) = none := by
      intro hmain
      have hnot : ∀ c ∈ candidateList (mainFile.getD []) dir, intToDec c.1 ≠ intToDec n :=
        fun c hcm he => candidateList_id_not_processed hcm n hmain (intToDec_injective he)
      have := collect_fold_ledger_other dir (candidateList (mainFile.getD []) dir)
        (intToDec n) hnot [] ledger0
      rw [this]
      exact hdisj n hmain
    by_cases hempty : (((candidateList (mainFile.getD []) dir).foldl (processResultStep dir)
        ([], ledger0)).1).isEmpty
    · rw [if_pos hempty] at hg
      apply huntouched
      rw [hg]
      exact hn
    · rw [if_neg (by simpa using hempty)] at hg
      cases serOk with
      | false =>
        simp only [Bool.false_eq_true, if_false] at hg
        apply huntouched
        rw [hg]
        exact hn
      | true =>
        simp only [if_pos] at hg
        injection hg with hg
        rw [← hg, load_processed_append] at hn
        rcases List.mem_append.mp hn with hmain | hflat
        · exact huntouched hmain
        · have hfst : ((candidateList (mainFile.getD []) dir).foldl (processResultStep dir)
              ([], ledger0)).1 =
              ((candidateList (mainFile.getD []) dir).map (stepGraphDelta dir)).flatten := by
            rw [collect_fold_fst]
            rfl
          rcases List.mem_filterMap.mp hflat with ⟨t, ht, hf⟩
          have hflat_t : n ∈ load_processed_persona_ids_from_rdf [t] := by
            unfold load_processed_persona_ids_from_rdf
            exact List.mem_filterMap.mpr ⟨t, List.mem_singleton_self t, hf⟩
          rw [hfst] at ht
          rcases newly_flatten_subject_candidate ht with ⟨c, hcmem, hcsubj, hdne⟩
          have hnc : n = c.1 := processed_singleton hflat_t hcsubj
          rcases stepGraphDelta_success_inv hdne with ⟨a, gopt, hwrap⟩
          rcases List.append_of_mem hcmem with ⟨l1, l2, hsplit⟩
          have hids2 : ∀ c' ∈ l2, intToDec c'.1 ≠ intToDec c.1 := by
            rw [hsplit] at huniq
            rcases List.pairwise_append.mp huniq with ⟨-, hp2, -⟩
            exact fun c' hc' he =>
              ((List.pairwise_cons.mp hp2).1 c' hc') (intToDec_injective he).symm
          rw [hnc, hsplit, List.foldl_append, List.foldl_cons]
          rcases hacc1 : l1.foldl (processResultStep dir) ([], ledger0) with ⟨gs1, L1⟩
          have hL1keys : (L1.map Prod.fst).Nodup := by
            have := collect_fold_keys_nodup dir l1 [] ledger0 hkeys
            rw [hacc1] at this
            exact this
          rcases hstep : processResultStep dir (gs1, L1) c with ⟨gs2, L2⟩
          have hL2 : pyGet L2 (intToDec c.1) = none := by
            have := processResultStep_success_ledger dir gs1 L1 c hwrap hL1keys
            rw [hstep] at this
            exact this
          rw [collect_fold_ledger_other dir l2 (intToDec c.1) hids2 gs2 L2]
          exact hL2

/-- C4: `append_graphs_to_main_rdf` with no new graphs is a no-op leaving
both the in-memory graph and the files untouched; with new graphs it
merges every pending statement set into the in-memory graph and, when
serialization succeeds, atomically replaces the destination with the
merged graph leaving no temporary file, while on a serialization failure
the temporary file is removed and the destination keeps its previous
content. -/
theorem commit_atomicity (main_graph : List Triple) (new_graphs : List (List Triple))
    (fs : OutFS) (serializeOk : Bool) :
    (new_graphs = [] →
      append_graphs_to_main_rdf main_graph new_graphs fs serializeOk = (main_graph, fs)) ∧
    (new_graphs ≠ [] →
      append_graphs_to_main_rdf main_graph new_graphs fs serializeOk =
        (main_graph ++ new_graphs.flatten,
         if serializeOk then ⟨some (main_graph ++ new_graphs.flatten), none⟩
         else ⟨fs.dest, none⟩)) := by
  constructor
  · intro h
    subst h
    rfl
  · intro h
    unfold append_graphs_to_main_rdf
    have hne : new_graphs.isEmpty = false := by
      cases new_graphs
      · exact absurd rfl h
      · rfl
    rw [hne]
    simp only [Bool.false_eq_true, if_false]
    rw [foldl_concat_join]
    cases serializeOk <;> simp

/-- C4 witness: a singleton commit with successful serialization, checked
at a concrete graph. -/
theorem commit_atomicity_witness :
    append_graphs_to_main_rdf [⟨S "a", S "p", .uri (S "o")⟩] [[⟨S "b", S "p", .uri (S "o")⟩]]
      ⟨some [⟨S "a", S "p", .uri (S "o")⟩], none⟩ true =
      ([⟨S "a", S "p", .uri (S "o")⟩, ⟨S "b", S "p", .uri (S "o")⟩],
       ⟨some [⟨S "a", S "p", .uri (S "o")⟩, ⟨S "b", S "p", .uri (S "o")⟩], none⟩) := by
  have h := (commit_atomicity [⟨S "a", S "p", .uri (S "o")⟩] [[⟨S "b", S "p", .uri (S "o")⟩]]
    ⟨some [⟨S "a", S "p", .uri (S "o")⟩], none⟩ true).2 (by simp)
  simpa using h

/-- C5 (code bug): for a missing source artifact the per-item worker never
returns the tagged `load_error` result the failure taxonomy specifies:
`assert_file_exists` raises `AssertionError` before `load_json_file`'s
`None` branch can be classified, the exception crosses the worker-result
boundary, and the collect loop records the persona with status
`unhandled_exception_in_main_thread`.  Evaluated at persona 7 whose
`persona_7.json` cannot be opened. -/
theorem missing_file_raises_assertion :
    convert_and_get_result_wrapper 7 (S "persona_7.json") none =
      .error (S "File does not exist: persona_7.json") ∧
    processResultStep [(S "persona_7.json", none)] ([], []) (7, S "persona_7.json") =
      ([], [(S "7", criticalEntry (S "File does not exist: persona_7.json") (S "persona_7.json"))]) ∧
    entryField (pyGet (processResultStep [(S "persona_7.json", none)] ([], [])
        (7, S "persona_7.json")).2 (intToDec 7)) (S "processing_status") =
      some (.jstr (S "unhandled_exception_in_main_thread")) :=
  ⟨rfl, rfl, rfl⟩

/-- C10: a `big five scores` value that is not a mapping is treated
exactly as the empty mapping — the conversion result is identical, so no
trait statements are emitted, no error is raised and the warning flag is
untouched; concretely, a persona with a string-valued `big five scores`
still converts with `success` and is committed. -/
theorem big_five_non_mapping_dropped
    (person_id : Int) (l1 l2 : List (List Char × JVal)) (v : JVal)
    (hv : ∀ m, v ≠ JVal.jobj m) :
    convert_persona_json_to_rdf_graph person_id (.jobj (l1 ++ (S "big five scores", v) :: l2)) =
      convert_persona_json_to_rdf_graph person_id
        (.jobj (l1 ++ (S "big five scores", .jobj []) :: l2)) ∧
    convert_persona_json_to_rdf_graph 3
        (.jobj [(S "age", .jint 41), (S "big five scores", .jstr (S "high"))]) =
      (some [⟨personaURI 3, RDF_type, .uri EX_Persona⟩,
             ⟨personaURI 3, EX (S "source"), .uri (sourceURI 3)⟩,
             ⟨personaURI 3, EX (S "age"), .lit (S "41") XSD_integer⟩], false) ∧
    convert_and_get_result_wrapper 3 (S "persona_3.json")
        (some (S "\x7b\"age\": 41, \"big five scores\": \"high\"\x7d")) =
      .ok (3, some [⟨personaURI 3, RDF_type, .uri EX_Persona⟩,
                    ⟨personaURI 3, EX (S "source"), .uri (sourceURI 3)⟩,
                    ⟨personaURI 3, EX (S "age"), .lit (S "41") XSD_integer⟩], S "success") := by
  have hobjd : v.asObjD = [] := by
    cases v <;> first | rfl | exact absurd rfl (hv _)
  refine ⟨?_, rfl, rfl⟩
  have hstep : ∀ acc : List Triple × Bool,
      convertFieldStep (personaURI person_id) acc (S "big five scores", v) =
        convertFieldStep (personaURI person_id) acc (S "big five scores", .jobj []) := by
    intro acc
    obtain ⟨g, w⟩ := acc
    unfold convertFieldStep
    dsimp only
    rw [if_pos rfl, if_pos rfl, hobjd]
    rfl
  have hfields : convertFields person_id (l1 ++ (S "big five scores", v) :: l2) =
      convertFields person_id (l1 ++ (S "big five scores", .jobj []) :: l2) := by
    unfold convertFields
    rw [List.foldl_append, List.foldl_append, List.foldl_cons, List.foldl_cons, hstep]
  have hemp : ∀ a : List Char × JVal, (l1 ++ a :: l2).isEmpty = false := by
    intro a
    cases l1 <;> rfl
  unfold convert_persona_json_to_rdf_graph
  dsimp only
  rw [hemp, hemp, hfields]

/-- C10 witness: the general non-mapping equality applied to the concrete
string-valued `big five scores`. -/
theorem big_five_non_mapping_dropped_witness :
    convert_persona_json_to_rdf_graph 3
        (.jobj [(S "age", .jint 41), (S "big five scores", .jstr (S "high"))]) =
      convert_persona_json_to_rdf_graph 3
        (.jobj [(S "age", .jint 41), (S "big five scores", .jobj [])]) :=
  (big_five_non_mapping_dropped 3 [(S "age", .jint 41)] [] (.jstr (S "high"))
    (fun _ h => JVal.noConfusion h)).1

/-- C9: a numeric-kind field whose value fails coercion gets a
string-typed fallback statement and flips the per-field success flag off;
any such field makes the whole record's flag report failure and the
conversion return no graph; and the concrete scenario
`age: "thirty-two", race: "Latino"` produces the fallback `age`
statement and the valid `race` statement in the working graph, reports
`allFieldsOk = false`, and is routed to the ledger with status
`conversion_warning`. -/
theorem field_mapper_fallback_and_flag :
    (∀ (g : List Triple) (puri : List Char) (v : JVal) (pname : List Char),
      v.isNull = false → pyToInt v = none →
      process_single_field_to_rdf g puri v (S "integer") pname =
        (g ++ [⟨puri, EX pname, .lit (pyStr v) XSD_string⟩], false)) ∧
    (∀ (g : List Triple) (puri : List Char) (v : JVal) (pname : List Char),
      v.isNull = false → pyToFloat v = none →
      process_single_field_to_rdf g puri v (S "float") pname =
        (g ++ [⟨puri, EX pname, .lit (pyStr v) XSD_string⟩], false)) ∧
    (∀ (person_id : Int) (kvs : List (List Char × JVal)) (kv : List Char × JVal),
      kv ∈ kvs → numericFieldOkB kv = false →
      (convertFields person_id kvs).2 = true ∧
      convert_persona_json_to_rdf_graph person_id (.jobj kvs) = (none, true)) ∧
    convertFields 5 [(S "age", .jstr (S "thirty-two")), (S "race", .jstr (S "Latino"))] =
      ([⟨personaURI 5, RDF_type, .uri EX_Persona⟩,
        ⟨personaURI 5, EX (S "source"), .uri (sourceURI 5)⟩,
        ⟨personaURI 5, EX (S "age"), .lit (S "thirty-two") XSD_string⟩,
        ⟨personaURI 5, EX (S "race"), .lit (S "Latino") XSD_string⟩], true) ∧
    convert_and_get_result_wrapper 5 (S "persona_5.json")
        (some (S "\x7b\"age\": \"thirty-two\", \"race\": \"Latino\"\x7d")) =
      .ok (5, none, S "conversion_warning") ∧
    processResultStep
        [(S "persona_5.json", some (S "\x7b\"age\": \"thirty-two\", \"race\": \"Latino\"\x7d"))]
        ([], []) (5, S "persona_5.json") =
      ([], [(S "5", .jobj [(S "age", .jstr (S "thirty-two")), (S "race", .jstr (S "Latino")),
                           (S "processing_status", .jstr (S "conversion_warning"))])]) := by
  refine ⟨?_, ?_, ?_, rfl, rfl, rfl⟩
  · intro g puri v pname h0 hint
    unfold process_single_field_to_rdf
    rw [h0]
    simp only [Bool.false_eq_true, if_false]
    rw [if_neg (by decide), if_pos trivial, hint]
  · intro g puri v pname h0 hflt
    unfold process_single_field_to_rdf
    rw [h0]
    simp only [Bool.false_eq_true, if_false]
    rw [if_neg (by decide), if_neg (by decide), if_pos trivial, hflt]
  · intro person_id kvs kv hmem hbad
    have hall : recordNumericOk kvs = false := by
      unfold recordNumericOk
      by_cases h : kvs.all numericFieldOkB
      · exact absurd (List.all_eq_true.mp h kv hmem) (by simp [hbad])
      · simpa using h
    constructor
    · rcases convertFields_eq person_id kvs with ⟨d, hd, -⟩
      rw [hd, hall]
      rfl
    · exact convert_none_of_warn person_id kvs (List.ne_nil_of_mem hmem) hall

/-- C9 witness: the integer-kind fallback conjunct applied at the
concrete failing value. -/
theorem field_mapper_fallback_and_flag_witness :
    process_single_field_to_rdf [] (personaURI 5) (.jstr (S "thirty-two")) (S "integer") (S "age") =
      ([⟨personaURI 5, EX (S "age"), .lit (S "thirty-two") XSD_string⟩], false) := by
  have h := field_mapper_fallback_and_flag.1 [] (personaURI 5) (.jstr (S "thirty-two")) (S "age")
    rfl (by decide)
  simpa using h

/-- C8 (amended): in the Collect phase, for a failed item whose id already
keys a (dict) ledger entry: when the source artifact reloads successfully,
the entry is left unchanged exactly when its stored `processing_status`
equals the new status, and is overwritten with the reloaded record plus
the new status when it differs; when the artifact cannot be reloaded, the
entry is overwritten with the error-reload payload regardless of the
stored status (the original claim omits the reload-failure overwrite, see
the counterexample). -/
theorem ledger_upsert_discipline
    (dir : List (List Char × Option (List Char))) (L : Ledger) (pid : Int)
    (fp st : List Char) (ekvs : List (List Char × JVal))
    (hent : pyGet L (intToDec pid) = some (.jobj ekvs)) :
    (∀ r, load_json_file (readFile dir fp) = some (.jobj r) →
      (pyGet ekvs (S "processing_status") = some (.jstr st) →
        handleFailure dir L pid fp st = L) ∧
      (pyGet ekvs (S "processing_status") ≠ some (.jstr st) →
        handleFailure dir L pid fp st =
          pySet L (intToDec pid) (.jobj (pySet r (S "processing_status") (.jstr st))))) ∧
    (load_json_file (readFile dir fp) = none →
      handleFailure dir L pid fp st = pySet L (intToDec pid) (errorReloadEntry fp st)) := by
  constructor
  · intro r hload
    unfold handleFailure
    rw [hload]
    dsimp only
    rw [hent]
    dsimp only
    constructor
    · intro heq
      rw [heq]
      dsimp only
      rw [if_neg (by simp)]
    · intro hne
      rcases hstored : pyGet ekvs (S "processing_status") with _ | sv
      · rw [if_pos rfl]
      · rcases sv with _ | b2 | n2 | q2 | s2 | xs2 | kv2
        · rw [if_pos rfl]
        · rw [if_pos rfl]
        · rw [if_pos rfl]
        · rw [if_pos rfl]
        · have hs2 : s2 ≠ st := fun he => hne (by rw [hstored, he])
          rw [if_pos (by simpa using hs2)]
        · rw [if_pos rfl]
        · rw [if_pos rfl]
  · intro hload
    unfold handleFailure
    rw [hload]

/-- C8 witness: an entry whose stored status matches the new failure and
whose artifact reloads is left untouched. -/
theorem ledger_upsert_discipline_witness :
    handleFailure [(S "persona_6.json", some (S "\x7b\"age\": \"x\"\x7d"))]
        [(S "6", .jobj [(S "processing_status", .jstr (S "conversion_warning"))])]
        6 (S "persona_6.json") (S "conversion_warning") =
      [(S "6", .jobj [(S "processing_status", .jstr (S "conversion_warning"))])] :=
  ((ledger_upsert_discipline [(S "persona_6.json", some (S "\x7b\"age\": \"x\"\x7d"))]
      [(S "6", .jobj [(S "processing_status", .jstr (S "conversion_warning"))])]
      6 (S "persona_6.json") (S "conversion_warning")
      [(S "processing_status", .jstr (S "conversion_warning"))] rfl).1
    [(S "age", .jstr (S "x"))] rfl).1 rfl

/-- C8 (counterexample): a failed item whose ledger entry already stores
the same status `load_error` is nevertheless rewritten when the artifact
no longer reloads: the stored entry's extra field vanishes, so the entry
is not left unchanged despite the equal status. -/
theorem ledger_upsert_reload_failure_cex :
    entryField (pyGet [(S "5", JVal.jobj [(S "foo", .jstr (S "bar")),
          (S "processing_status", .jstr (S "load_error"))])] (S "5"))
        (S "processing_status") = some (.jstr (S "load_error")) ∧
    convert_and_get_result_wrapper 5 (S "persona_5.json")
        (readFile [(S "persona_5.json", some (S "not json"))] (S "persona_5.json")) =
      .ok (5, none, S "load_error") ∧
    processResultStep [(S "persona_5.json", some (S "not json"))]
        ([], [(S "5", JVal.jobj [(S "foo", .jstr (S "bar")),
              (S "processing_status", .jstr (S "load_error"))])])
        (5, S "persona_5.json") =
      ([], [(S "5", errorReloadEntry (S "persona_5.json") (S "load_error"))]) ∧
    pyGet (processResultStep [(S "persona_5.json", some (S "not json"))]
        ([], [(S "5", JVal.jobj [(S "foo", .jstr (S "bar")),
              (S "processing_status", .jstr (S "load_error"))])])
        (5, S "persona_5.json")).2 (S "5") ≠
      pyGet [(S "5", JVal.jobj [(S "foo", .jstr (S "bar")),
          (S "processing_status", .jstr (S "load_error"))])] (S "5") := by
  refine ⟨rfl, rfl, rfl, ?_⟩
  intro h
  have hA : entryField (pyGet (processResultStep [(S "persona_5.json", some (S "not json"))]
      ([], [(S "5", JVal.jobj [(S "foo", .jstr (S "bar")),
            (S "processing_status", .jstr (S "load_error"))])])
      (5, S "persona_5.json")).2 (S "5")) (S "foo") = none := rfl
  rw [h] at hA
  rw [show entryField (pyGet [(S "5", JVal.jobj [(S "foo", .jstr (S "bar")),
      (S "processing_status", .jstr (S "load_error"))])] (S "5")) (S "foo") =
      some (.jstr (S "bar")) from rfl] at hA
  exact Option.noConfusion hA

/-- C1 (counterexample): the empty record refutes the claimed
equivalence.  Every integer/float field of the record vacuously coerces,
yet the persona contributes nothing to the main store — the run leaves no
store file at all — and its ledger status is
`conversion_error_or_empty_data`, not `conversion_warning`. -/
theorem numeric_gate_empty_record_cex :
    recordNumericOk [] = true ∧
    load_json_file (readFile [(S "persona_0.json", some (S "\x7b\x7d"))] (S "persona_0.json")) =
      some (.jobj []) ∧
    (0, S "persona_0.json") ∈ candidateList [] [(S "persona_0.json", some (S "\x7b\x7d"))] ∧
    process_all_personas none [] [(S "persona_0.json", some (S "\x7b\x7d"))] true =
      (none, [(S "0", .jobj [(S "processing_status",
        .jstr (S "conversion_error_or_empty_data"))])]) ∧
    ¬∃ g, (process_all_personas none [] [(S "persona_0.json", some (S "\x7b\x7d"))] true).1 =
      some g := by
  refine ⟨rfl, rfl, by decide, rfl, ?_⟩
  rintro ⟨g, hg⟩
  rw [show (process_all_personas none [] [(S "persona_0.json", some (S "\x7b\x7d"))] true).1 =
    none from rfl] at hg
  exact Option.noConfusion hg

/-- C1 witness: a candidate whose single integer field coerces is
committed — its statements appear in the store file after the run. -/
theorem numeric_gate_commit_iff_witness :
    ∃ g, (process_all_personas none []
        [(S "persona_2.json", some (S "\x7b\"age\": 41\x7d"))] true).1 = some g ∧
      ∃ t ∈ g, t.subj = personaURI 2 :=
  ((numeric_gate_commit_iff none [] [(S "persona_2.json", some (S "\x7b\"age\": 41\x7d"))]
      2 (S "persona_2.json") [(S "age", .jint 41)]
      (by decide) (by decide) rfl (by simp) (by simp) (by simp) (by simp)).1).mpr rfl

/-- C7 (counterexample): a pre-state in which persona 1 is both a
type-tagged subject of the main store and a key of the ledger survives a
completed run unchanged — the run excludes the id from the candidates and
returns early, so the overlap persists in the saved files. -/
theorem store_ledger_overlap_cex :
    process_all_personas (some [⟨personaURI 1, RDF_type, .uri EX_Persona⟩])
        [(S "1", .jobj [(S "processing_status", .jstr (S "json_error"))])]
        [(S "persona_1.json", some (S "\x7b\"age\": 1\x7d"))] true =
      (some [⟨personaURI 1, RDF_type, .uri EX_Persona⟩],
       [(S "1", .jobj [(S "processing_status", .jstr (S "json_error"))])]) ∧
    (1 : Int) ∈ load_processed_persona_ids_from_rdf [⟨personaURI 1, RDF_type, .uri EX_Persona⟩] ∧
    (pyGet [(S "1", JVal.jobj [(S "processing_status", JVal.jstr (S "json_error"))])]
      (intToDec 1)).isSome = true :=
  ⟨rfl, by decide, rfl⟩

/-- C7 witness: the preservation theorem applied to a run that commits
persona 2 into a store already holding persona 1 with an empty ledger. -/
theorem store_ledger_disjoint_preserved_witness :
    pyGet (process_all_personas (some [⟨personaURI 1, RDF_type, .uri EX_Persona⟩]) []
        [(S "persona_2.json", some (S "\x7b\"age\": 41\x7d"))] true).2 (intToDec 2) = none :=
  store_ledger_disjoint_preserved (some [⟨personaURI 1, RDF_type, .uri EX_Persona⟩]) []
    [(S "persona_2.json", some (S "\x7b\"age\": 41\x7d"))] true
    (fun _ _ => rfl) (by decide) (by simp) 2 ⟨_, rfl, by decide⟩

/-- C3 witness: with persona 1 already type-tagged in the store, a run
over a mutated `persona_1.json` leaves the statements about persona 1
exactly as before. -/
theorem resumability_no_reemit_witness :
    (∃ g, (process_all_personas (some [⟨personaURI 1, RDF_type, .uri EX_Persona⟩]) []
        [(S "persona_1.json", some (S "\x7b\"age\": 99\x7d"))] true).1 = some g ∧
        (⟨personaURI 1, RDF_type, .uri EX_Persona⟩ : Triple) ∈ g) ↔
      (∃ g0, (some [⟨personaURI 1, RDF_type, .uri EX_Persona⟩] : Option (List Triple)) = some g0 ∧
        (⟨personaURI 1, RDF_type, .uri EX_Persona⟩ : Triple) ∈ g0) :=
  (resumability_no_reemit (some [⟨personaURI 1, RDF_type, .uri EX_Persona⟩]) []
    [(S "persona_1.json", some (S "\x7b\"age\": 99\x7d"))] true 1 (by decide)).2 _ rfl

/-- C2 (amended): on fence-free text, the extractor returns the 33-key
object's text exactly when that object is the one starting at the first
opening brace; when the object parsed at the first brace is not the
33-key one (for instance because the 33-key object appears after another
object), the whole input is returned unchanged — the scan never advances
to a later brace (the original position-independence claim fails, see the
counterexample). -/
theorem extractor_first_brace_gate
    (text : List Char) (i n : Nat) (kvs : List (List Char × JVal))
    (hnof : findSubstrIdx (S "```json") text = none)
    (hbrace : text.findIdx? (· = '\x7b') = some i)
    (hdec : raw_decode (text.drop i) = some (.jobj kvs, n)) :
    (kvs.length = 33 → extract_json_from_output text = (text.drop i).take n) ∧
    (kvs.length ≠ 33 → extract_json_from_output text = text) := by
  have hfc : fencedCapture text = none := by
    unfold fencedCapture
    rw [hnof]
  unfold extract_json_from_output
  rw [hfc]
  dsimp only
  rw [hbrace]
  dsimp only
  rw [hdec]
  dsimp only
  constructor
  · intro h33
    rw [if_pos h33]
  · intro h33
    rw [if_neg h33]

/-- C2 witness: the 33-key object sitting at the first brace, followed by
a second object, is extracted exactly. -/
theorem extractor_first_brace_gate_witness :
    extract_json_from_output (obj33Text ++ S " \x7b\"zz\": 0\x7d") = obj33Text := by
  have h := (extractor_first_brace_gate (obj33Text ++ S " \x7b\"zz\": 0\x7d") 0 obj33Text.length
      ((List.range 33).map fun m => ('k' :: natToDec m, JVal.jint 0))
      (by decide) (by decide) rfl).1 (by decide)
  rw [h]
  decide

/-- C2 (counterexample): a fence-free input holding a 1-key object and
then a 33-key object — exactly one of the two decodes to a 33-key mapping
— is returned unchanged instead of yielding the 33-key object's text:
the extractor only ever parses the object at the first brace. -/
theorem extractor_second_object_cex :
    (json_loads smallObjText).bind objLen = some 1 ∧
    (json_loads obj33Text).bind objLen = some 33 ∧
    extract_json_from_output twoObjText = twoObjText ∧
    twoObjText ≠ obj33Text :=
  ⟨by decide, by decide, by decide, by decide⟩

/-- C6 (amended): when neither strategy yields a 33-field mapping, the
extractor returns the original raw text unchanged — there is no typed
error value; downstream, the worker then records `json_error` only when
that raw text itself fails to parse (the original claim's typed
`NoValidObject` failure does not exist, see the counterexample). -/
theorem extractor_fallthrough_returns_text
    (text : List Char)
    (h1 : ∀ cap kvs, fencedCapture text = some cap → json_loads cap = some (.jobj kvs) →
      kvs.length ≠ 33)
    (h2 : ∀ i kvs n, text.findIdx? (· = '\x7b') = some i →
      raw_decode (text.drop i) = some (.jobj kvs, n) → kvs.length ≠ 33) :
    extract_json_from_output text = text := by
  unfold extract_json_from_output
  rcases hfc : fencedCapture text with _ | cap
  · dsimp only
    rcases hidx : text.findIdx? (· = '\x7b') with _ | i
    · rfl
    · dsimp only
      rcases hdec : raw_decode (text.drop i) with _ | ⟨v, n⟩
      · rfl
      · rcases v with _ | b | m | q | sv | xs | kvs
        all_goals dsimp only
        all_goals try rfl
        rw [if_neg (h2 i kvs n hidx hdec)]
  · dsimp only
    have hrest : (match json_loads cap with
        | some (.jobj kvs) => if kvs.length = 33 then some cap else none
        | _ => none) = (none : Option (List Char)) := by
      rcases hjl : json_loads cap with _ | v
      · rfl
      · rcases v with _ | b | m | q | sv | xs | kvs
        all_goals try rfl
        dsimp only
        rw [if_neg (h1 cap kvs hfc hjl)]
    rw [hrest]
    dsimp only
    rcases hidx : text.findIdx? (· = '\x7b') with _ | i
    · rfl
    · dsimp only
      rcases hdec : raw_decode (text.drop i) with _ | ⟨v, n⟩
      · rfl
      · rcases v with _ | b | m | q | sv | xs | kvs
        all_goals dsimp only
        all_goals try rfl
        rw [if_neg (h2 i kvs n hidx hdec)]

/-- C6 witness: text with no fenced region and no object at all is
returned unchanged. -/
theorem extractor_fallthrough_returns_text_witness :
    extract_json_from_output (S "no json here") = S "no json here" :=
  extractor_fallthrough_returns_text (S "no json here")
    (fun cap kvs hfc _ => by
      rw [show fencedCapture (S "no json here") = none from by decide] at hfc
      exact Option.noConfusion hfc)
    (fun i kvs n hidx _ => by
      rw [show (S "no json here").findIdx? (· = '\x7b') = none from by decide] at hidx
      exact Option.noConfusion hidx)

/-- C6 (counterexample): an input in which no strategy yields a 33-field
mapping (its only object has one key): the extractor returns the raw
text itself — a plain, non-error value — and the worker then parses it
successfully and records the 1-key object as a `success`, not any typed
failure. -/
theorem extractor_returns_text_cex :
    extract_json_from_output smallObjText = smallObjText ∧
    (json_loads smallObjText).bind objLen = some 1 ∧
    worker_classify smallObjText = (S "success", some (.jobj [(S "zz", .jint 0)])) :=
  ⟨by decide, by decide, rfl⟩
